import Mathlib

/-!
Verification development for the LeCrunch3 acquisition pipeline
(`fetchAndSaveFast.py`, `fetchAndSaveSimple.py`).

The Python source is shallowly embedded:
* pure numeric formatting helpers (`datasize_human_readable`,
  `get_optimal_prefix`) become functions over `ℚ` (the exact idealization of
  the source's IEEE doubles; `math.log10` is idealized as the exact
  floor-of-log10 on rationals, which agrees with the double computation on
  every input used in the theorems below),
* the settings parser `get_sequence_count` works on `List Char`
  (the bytes value of the `SEQUENCE` setting) and returns `Except`,
  `Except.error ()` modelling a raised `IndexError`/`ValueError`,
* the capture loop of `fetchAndSaveFast` becomes a step function on an
  explicit store state, driven by a schedule of per-trigger-cycle outcomes
  (success with one waveform frame per channel, or a raised transport /
  persistence exception); ghost write counters record how often each row of
  each dataset has been written.
-/

/-! ### Rational-number helpers (exact idealization of float arithmetic) -/

/-- Floor of a rational number, computed from numerator and denominator. -/
def qFloor (q : ℚ) : ℤ := Int.fdiv q.num (q.den : ℤ)

/-- Ceiling of a rational number. -/
def qCeil (q : ℚ) : ℤ := - qFloor (-q)

/-- `10 ** e` for an integer exponent, as a rational. -/
def qpow10 (e : ℤ) : ℚ :=
  if 0 ≤ e then ((10 : ℚ) ^ e.toNat) else ((10 : ℚ) ^ (-e).toNat)⁻¹

/-- Fuel-bounded `⌊log10 n⌋` on naturals (`n ≥ 1`); fuel `n` always suffices
because the recursion divides by ten and stops below ten. -/
def natLog10Aux : ℕ → ℕ → ℕ
  | 0, _ => 0
  | fuel + 1, n => if n < 10 then 0 else natLog10Aux fuel (n / 10) + 1

/-- Fuel-bounded `⌈log10 n⌉` on naturals (`n ≥ 1`). -/
def natCeilLog10Aux : ℕ → ℕ → ℕ
  | 0, _ => 0
  | fuel + 1, n => if n ≤ 1 then 0 else natCeilLog10Aux fuel ((n + 9) / 10) + 1

/-- Exact `⌊log10 q⌋` for a positive rational: the idealization of Python's
`math.log10` followed by flooring.  For `q ≥ 1` it is the digit count of
`⌊q⌋` minus one; for `0 < q < 1` it is `-⌈log10 (1/q)⌉`. -/
def qFloorLog10 (q : ℚ) : ℤ :=
  if 1 ≤ q then (natLog10Aux (qFloor q).toNat (qFloor q).toNat : ℤ)
  else - (natCeilLog10Aux (qCeil q⁻¹).toNat (qCeil q⁻¹).toNat : ℤ)

/-- Left-pad a numeral string with zeros to a given width. -/
def padZeros (s : String) (w : ℕ) : String :=
  String.mk (List.replicate (w - s.length) '0') ++ s

/-- Python's `"{:.Pf}".format(q)`: fixed-point rendering with `prec` decimal
digits.  Rounds half away from zero; the formatting calls in this file never
hit a tie, so the model agrees with Python's round-half-even on every input
used below. -/
def formatFixed (q : ℚ) (prec : ℕ) : String :=
  let scaled : ℤ := qFloor (|q| * (10 : ℚ) ^ prec + 1 / 2)
  let base : ℤ := (10 : ℤ) ^ prec
  (if q < 0 then "-" else "") ++ toString (scaled.fdiv base) ++ "." ++
    padZeros (toString (scaled.emod base).toNat) prec

/-! ### `datasize_human_readable` (fetchAndSaveFast.py lines 40-52) -/

/-- `size_units = ["B", "KB", "MB", "GB", "TB", "PB"]` -/
def size_units : List String := ["B", "KB", "MB", "GB", "TB", "PB"]

/-- The `while size_bytes >= 1024 and i < len(size_units) - 1:` loop.  The
`i < 5` conjunct bounds the iteration count by five, so fuel 6 makes the
fuel-bounded recursion equal to the source's while loop. -/
def dshrAux : ℕ → ℚ → ℕ → ℚ × ℕ
  | 0, s, i => (s, i)
  | fuel + 1, s, i =>
    if 1024 ≤ s ∧ i < 5 then dshrAux fuel (s / 1024) (i + 1) else (s, i)

/-- `datasize_human_readable(size_bytes)`: repeatedly divide by 1024.0 while
at least 1024 and units remain, then format `"{:.2f} {}"`. -/
def datasize_human_readable (size_bytes : ℚ) : String :=
  let p := dshrAux 6 size_bytes 0
  formatFixed p.1 2 ++ " " ++ (size_units.getD p.2 "")

/-! ### `get_optimal_prefix` (fetchAndSaveFast.py lines 55-95) -/

/-- The `prefixes` dictionary (exponent ↦ SI letter).  The `-6` entry is the
source file's literal two-character sequence `Âµ` (a mojibake of `µ` in the
checked-in file), reproduced verbatim. -/
def prefixTable : List (ℤ × String) :=
  [(24, "Y"), (21, "Z"), (18, "E"), (15, "P"), (12, "T"), (9, "G"), (6, "M"),
   (3, "k"), (0, ""), (-3, "m"), (-6, "Âµ"), (-9, "n"), (-12, "p"), (-15, "f"),
   (-18, "a"), (-21, "z"), (-24, "y")]

/-- `get_optimal_prefix(number, tolerance)`.
`exp_exact = log10(abs(number)) // 3 * 3` is an exact multiple of three, so
`exp_exact % 3` is identically zero and the source line
`exp_rounded = exp_exact if abs(exp_exact % 3) > tolerance else round(exp_exact)`
returns `exp_exact` on both branches (`round` of an integer-valued float is
that integer).  `prefixes.get(exp, "")` defaults to the empty string, and the
result is `"{:.3f} {}".format(number / 10**exp, prefix)`. -/
def get_optimal_prefix_tol (number tolerance : ℚ) : String :=
  if number = 0 then "0"
  else
    let exp_exact : ℤ := Int.fdiv (qFloorLog10 |number|) 3 * 3
    let expMod : ℚ := ((exp_exact % 3 : ℤ) : ℚ)
    let exp_rounded : ℤ := if tolerance < |expMod| then exp_exact else exp_exact
    formatFixed (number / qpow10 exp_rounded) 3 ++ " " ++
      ((prefixTable.lookup exp_rounded).getD "")

/-- `get_optimal_prefix` with the default `tolerance=1e-10`. -/
def get_optimal_prefix (number : ℚ) : String :=
  get_optimal_prefix_tol number (1 / 10 ^ 10)

/-! ### `get_sequence_count` (fetchAndSaveFast.py lines 98-106)

The `SEQUENCE` setting's bytes value is modelled as a `List Char`;
a raised `IndexError`/`ValueError` is modelled as `Except.error ()`. -/

/-- `b"ON" in settings["SEQUENCE"]`: substring containment. -/
def containsON (v : List Char) : Bool := decide ("ON".toList <:+: v)

/-- Is this character ASCII whitespace (as stripped by Python's `int`)? -/
def isSpaceB (c : Char) : Bool := c == ' ' || c == '\t' || c == '\n' || c == '\r'

/-- Strip leading and trailing whitespace. -/
def trimSpaces (l : List Char) : List Char :=
  ((l.dropWhile isSpaceB).reverse.dropWhile isSpaceB).reverse

/-- Decimal digit test. -/
def isDigitChar (c : Char) : Bool := c.isDigit

/-- Numeric value of a digit run. -/
def digitsVal (ds : List Char) : ℕ :=
  ds.foldl (fun acc c => 10 * acc + (c.toNat - '0'.toNat)) 0

/-- Python `int()` on a bytes field: optional surrounding whitespace, optional
sign, then a nonempty run of decimal digits (`_` grouping not modelled —
never produced by the instrument).  `none` models a raised `ValueError`. -/
def pyInt (field : List Char) : Option ℤ :=
  let core : List Char → Option ℤ := fun ds =>
    if ds ≠ [] ∧ ds.all isDigitChar then some ((digitsVal ds : ℕ) : ℤ) else none
  match trimSpaces field with
  | '+' :: ds => core ds
  | '-' :: ds => (core ds).map (fun n => -n)
  | ds => core ds

/-- `get_sequence_count(settings)`: default 1; if `b"ON"` occurs anywhere in
the `SEQUENCE` value, re-assign `int(settings["SEQUENCE"].split(b",")[1])`,
raising if the second field is missing or malformed. -/
def get_sequence_count (v : List Char) : Except Unit ℤ :=
  if containsON v then
    match (v.splitOn ',').get? 1 with
    | none => Except.error ()
    | some field =>
      match pyInt field with
      | none => Except.error ()
      | some n => Except.ok n
  else Except.ok 1

/-! ### `setup_scope` (fetchAndSaveFast.py lines 109-148)

Only the control flow relevant to the claims is modelled: the function
re-reads the settings after configuration (here: the read-back `SEQUENCE`
value is an input), parses the applied sequence count, and on a mismatch
with the requested count only prints a warning and proceeds; it never fails
because of the mismatch.  (The `COMM_FORMAT` 16-bit push and the instrument
I/O itself are external collaborators.) -/

structure SetupResult where
  settings : List Char
  warned : Bool

/-- `setup_scope(scope, nsequence, ...)`; `readBack` is the `SEQUENCE` value
of the settings read back from the instrument after configuration. -/
def setup_scope (nsequence : ℤ) (readBack : List Char) : Except Unit SetupResult :=
  match get_sequence_count readBack with
  | Except.error e => Except.error e
  | Except.ok sc => Except.ok { settings := readBack, warned := nsequence ≠ sc }

/-! ### The capture loop of `fetchAndSaveFast` (lines 199-290)

The per-channel h5py datasets become explicit per-channel state; the fields
named `*Writes` are ghost write counters (how many times each row index of
the corresponding dataset has been assigned), used to state the
no-duplication / no-skip properties.  The four calibration columns
(`vert_offset`, `vert_scale`, `horiz_offset`, `horiz_scale`) are always
written together by the source, so they share the single ghost counter
`calibWrites`. -/

/-- The wave descriptor fields the loop reads. -/
structure WaveDesc where
  wave_array_count : ℕ
  vertical_offset : ℚ
  vertical_gain : ℚ
  horiz_offset : ℚ
  horiz_interval : ℚ

/-- One `scope.get_waveform_all(channel)` response:
`(wave_desc, trg_times, trg_offsets, wave_array)`. -/
structure Frame where
  desc : WaveDesc
  trg_times : List ℚ
  trg_offsets : List ℚ
  wave_array : List ℤ

/-- Per-channel slice of the HDF5 file plus ghost write counters. -/
structure ChannelState where
  samples : List (List ℤ)
  vert_offset : List ℚ
  vert_scale : List ℚ
  horiz_offset : List ℚ
  horiz_scale : List ℚ
  trig_offset : List ℚ
  trig_time : List ℚ
  current_dim : ℕ
  sampleWrites : ℕ → ℕ
  calibWrites : ℕ → ℕ
  trigOffsetWrites : ℕ → ℕ
  trigTimeWrites : ℕ → ℕ

/-- Increment a ghost write counter at one row index. -/
def bumpF (f : ℕ → ℕ) (k : ℕ) : ℕ → ℕ := fun j => if j = k then f j + 1 else f j

/-- Add one to a ghost write counter on the row window `[i, i+m)`. -/
def addRange (f : ℕ → ℕ) (i m : ℕ) : ℕ → ℕ :=
  fun j => if i ≤ j ∧ j < i + m then f j + 1 else f j

/-- Zero-pad (or truncate) a row to width `w` — the h5py row-assignment /
resize fill semantics, and the content of the freshly zeroed `scratch`
buffer after `scratch[0:ns] = sub`. -/
def padTo (w : ℕ) (l : List ℤ) : List ℤ := l.take w ++ List.replicate (w - l.length) 0

/-- `traces[n]` after `traces = wave_array.reshape(sequence_count, size // sequence_count)`. -/
def subTrace (arr : List ℤ) (rowLen n : ℕ) : List ℤ := (arr.drop (n * rowLen)).take rowLen

/-- Lines 265-267: `if current_dim[channel] < num_samples_to_save: resize`.
An h5py column resize keeps existing data and zero-fills new columns. -/
def ensureWidth (st : ChannelState) (w : ℕ) : ChannelState :=
  if st.current_dim < w then
    { st with current_dim := w, samples := st.samples.map (padTo w) }
  else st

/-- The body of `for n in range(sequence_count)` (lines 271-282): build the
scratch row `scratch[0:num_samples] = traces[n][:num_samples_to_save]`
(zeros elsewhere), assign row `i+n` of the sample matrix and the four
calibration columns, and assign the trigger-offset / trigger-time columns
only when the instrument supplied that data. -/
def writeRowStep (fr : Frame) (ns rowLen i : ℕ) (st : ChannelState) (n : ℕ) : ChannelState :=
  let row := padTo st.current_dim ((subTrace fr.wave_array rowLen n).take ns)
  { st with
    samples := st.samples.set (i + n) row
    sampleWrites := bumpF st.sampleWrites (i + n)
    vert_offset := st.vert_offset.set (i + n) fr.desc.vertical_offset
    vert_scale := st.vert_scale.set (i + n) fr.desc.vertical_gain
    horiz_offset := st.horiz_offset.set (i + n) fr.desc.horiz_offset
    horiz_scale := st.horiz_scale.set (i + n) fr.desc.horiz_interval
    calibWrites := bumpF st.calibWrites (i + n)
    trig_offset :=
      if 0 < fr.trg_offsets.length then
        st.trig_offset.set (i + n) (fr.trg_offsets.getD n 0)
      else st.trig_offset
    trigOffsetWrites :=
      if 0 < fr.trg_offsets.length then bumpF st.trigOffsetWrites (i + n)
      else st.trigOffsetWrites
    trig_time :=
      if 0 < fr.trg_times.length then
        st.trig_time.set (i + n) (fr.trg_times.getD n 0)
      else st.trig_time
    trigTimeWrites :=
      if 0 < fr.trg_times.length then bumpF st.trigTimeWrites (i + n)
      else st.trigTimeWrites }

/-- Write the `m` sub-trace rows of one frame. -/
def writeRows (fr : Frame) (ns rowLen i m : ℕ) (st : ChannelState) : ChannelState :=
  (List.range m).foldl (writeRowStep fr ns rowLen i) st

/-- Lines 263-282 for one channel: `num_samples = wave_array_count //
sequence_count`, `num_samples_to_save = int(1 * num_samples)`, grow the
matrix if needed, then demultiplex the flat buffer into `sequence_count`
rows of length `size // sequence_count` and write them. -/
def processChannel (seq i : ℕ) (st : ChannelState) (fr : Frame) : ChannelState :=
  let num_samples := fr.desc.wave_array_count / seq
  let num_samples_to_save := 1 * num_samples
  let st1 := ensureWidth st num_samples_to_save
  let rowLen := fr.wave_array.length / seq
  writeRows fr num_samples_to_save rowLen i seq st1

/-- One trigger cycle's outcome, as seen by the `try` block.  The `except
Exception` at line 286 wraps the whole cycle body, so an exception can fire
at any point of the per-channel loop, after some channels' rows were
already written:
* `transportFail` / `storeFail`: the exception fires at `scope.trigger()`
  (resp. at the first store operation after it), before any channel data
  was fetched or written;
* `fail frames done rows`: the exception fires mid-channel-loop — the first
  `done` channels of `active_channels` were fetched and fully written, and
  if `rows > 0` the next channel was fetched, resized, and its first
  `min rows sequence_count` sub-trace rows written before the exception
  (`rows = 0` covers a failure at that channel's fetch or rejected resize,
  leaving it untouched);
* `ok frames`: the cycle succeeds and delivers one frame per channel
  (keyed by channel number). -/
inductive CycleEvent where
  | transportFail
  | storeFail
  | fail (frames : ℕ → Frame) (done rows : ℕ)
  | ok (frames : ℕ → Frame)

/-- Is this event a successful cycle? -/
def CycleEvent.isOkEv : CycleEvent → Bool
  | CycleEvent.ok _ => true
  | _ => false

/-- Number of successful-cycle events in a schedule. -/
def okCount (s : List (ℚ × CycleEvent)) : ℕ :=
  (s.filter (fun e => e.2.isOkEv)).length

/-- Per-event condition: every frame an `ok` event delivers for an active
channel satisfies `P`. -/
def eventP (P : Frame → Prop) (ids : List ℕ) : ℚ × CycleEvent → Prop
  | (_, CycleEvent.ok frames) => ∀ ch ∈ ids, P (frames ch)
  | _ => True

/-- Does this event leave every channel dataset untouched when it fails?
(True of trigger-time failures and of successful cycles; a mid-cycle `fail`
qualifies only when it wrote no channel and no row.) -/
def eventNoPartial : ℚ × CycleEvent → Bool
  | (_, CycleEvent.fail _ done rows) => done == 0 && rows == 0
  | _ => true

/-- Whole-file state of the capture loop. -/
structure LoopState where
  chanIds : List ℕ
  chans : ℕ → ChannelState
  seconds_from_start : List ℚ
  secondsWrites : ℕ → ℕ
  i : ℕ
  cycles : ℕ

/-- Point update of the channel map (the per-channel h5py datasets / the
`current_dim` dict are keyed by channel number). -/
def updF (m : ℕ → ChannelState) (c : ℕ) (v : ChannelState) : ℕ → ChannelState :=
  fun x => if x = c then v else m x

/-- `for channel in active_channels:` fetch and pack one frame per channel. -/
def processAll (seq i : ℕ) (ids : List ℕ) (frames : ℕ → Frame)
    (m : ℕ → ChannelState) : ℕ → ChannelState :=
  ids.foldl (fun acc c => updF acc c (processChannel seq i (acc c) (frames c))) m

/-- The partially executed body of one channel's packing loop: the store was
resized (lines 265-267) and only the first `min rows sequence_count`
iterations of `for n in range(sequence_count)` ran before the exception. -/
def processChannelPartial (seq i rows : ℕ) (st : ChannelState) (fr : Frame) : ChannelState :=
  let num_samples := fr.desc.wave_array_count / seq
  let num_samples_to_save := 1 * num_samples
  let st1 := ensureWidth st num_samples_to_save
  let rowLen := fr.wave_array.length / seq
  writeRows fr num_samples_to_save rowLen i (min rows seq) st1

/-- The store effect of a cycle whose exception fired mid-channel-loop: the
first `done` channels fully processed, then — when `rows > 0` — the next
channel (if any) resized with its first `min rows sequence_count` rows
written.  (A failure after a successful resize but before the first row
write differs from `rows = 0` only in the width growth persisting; no claim
distinguishes that point.) -/
def processPartial (seq i : ℕ) (ids : List ℕ) (frames : ℕ → Frame) (done rows : ℕ)
    (m : ℕ → ChannelState) : ℕ → ChannelState :=
  let m1 := processAll seq i (ids.take done) frames m
  match rows with
  | 0 => m1
  | r + 1 =>
    match (ids.drop done).head? with
    | some c => updF m1 c (processChannelPartial seq i (r + 1) (m1 c) (frames c))
    | none => m1

/-- One iteration of the `while i < nevents` body (lines 237-290).  The
timestamp `f["seconds_from_start"][i] = time_from_start` is the first
statement of the `try` block, so it lands even when the cycle subsequently
fails.  `except Exception` (line 286) catches transport and persistence
failures alike — including exceptions fired mid-channel-loop after earlier
channels' rows were already written (`CycleEvent.fail`, whose partial store
effect is `processPartial`): `scope.clear()` (instrument-side only, no
store effect) and `continue` without advancing `i`, so the retry rewrites
the same index window.  On success `i += sequence_count`. -/
def stepCycle (seq : ℕ) (st : LoopState) (t : ℚ) (ev : CycleEvent) : LoopState :=
  let st1 : LoopState :=
    { st with
      seconds_from_start := st.seconds_from_start.set st.i t
      secondsWrites := bumpF st.secondsWrites st.i
      cycles := st.cycles + 1 }
  match ev with
  | CycleEvent.transportFail => st1
  | CycleEvent.storeFail => st1
  | CycleEvent.fail frames done rows =>
    { st1 with
      chans := processPartial seq st.i st.chanIds frames done rows st.chans }
  | CycleEvent.ok frames =>
    { st1 with
      chans := processAll seq st.i st.chanIds frames st.chans
      i := st.i + seq }

/-- `while i < nevents:` driven by a finite schedule of cycle outcomes
(each paired with the wall-clock offset `time.time() - start_time` observed
at the top of the iteration). -/
def runLoop (seq nevents : ℕ) : LoopState → List (ℚ × CycleEvent) → LoopState
  | st, [] => st
  | st, e :: rest =>
    if st.i < nevents then runLoop seq nevents (stepCycle seq st e.1 e.2) rest else st

/-- Lines 207-230: per-channel dataset creation.  The sample matrix has
shape `(nevents, wave_array_count // sequence_count)`; h5py zero-fills
fresh datasets. -/
def initChannel (nevents seq : ℕ) (d : WaveDesc) : ChannelState :=
  let width := d.wave_array_count / seq
  { samples := List.replicate nevents (List.replicate width 0)
    vert_offset := List.replicate nevents 0
    vert_scale := List.replicate nevents 0
    horiz_offset := List.replicate nevents 0
    horiz_scale := List.replicate nevents 0
    trig_offset := List.replicate nevents 0
    trig_time := List.replicate nevents 0
    current_dim := width
    sampleWrites := fun _ => 0
    calibWrites := fun _ => 0
    trigOffsetWrites := fun _ => 0
    trigTimeWrites := fun _ => 0 }

/-- The freshly created file: per-channel datasets (keyed by channel
number, descriptor queried per channel) plus the single
`seconds_from_start` dataset of shape `(nevents,)` (line 230). -/
def initLoopState (nevents seq : ℕ) (ids : List ℕ) (descs : ℕ → WaveDesc) : LoopState :=
  { chanIds := ids
    chans := fun ch => initChannel nevents seq (descs ch)
    seconds_from_start := List.replicate nevents 0
    secondsWrites := fun _ => 0
    i := 0
    cycles := 0 }

/-- `fetchAndSaveFast` after a successful connection: configure the scope
(requested `nsequence`), parse the applied sequence count from the settings
read back, size the store from it, and run the capture loop.  `nsequence`
is used only for configuration requests and progress printing; every sizing
decision uses the applied count. -/
def fetchAndSaveFastModel (nevents : ℕ) (nsequence : ℤ) (readBack : List Char)
    (ids : List ℕ) (descs : ℕ → WaveDesc) (sched : List (ℚ × CycleEvent)) :
    Except Unit LoopState :=
  match setup_scope nsequence readBack with
  | Except.error e => Except.error e
  | Except.ok res =>
    match get_sequence_count res.settings with
    | Except.error e => Except.error e
    | Except.ok sc =>
      let sequence_count := sc.toNat
      Except.ok (runLoop sequence_count nevents
        (initLoopState nevents sequence_count ids descs) sched)

/-! ### Concrete fixtures used by counterexamples and witnesses -/

/-- A wave descriptor with `wave_array_count = w` and trivial calibration. -/
def mkDesc (w : ℕ) : WaveDesc :=
  { wave_array_count := w, vertical_offset := 0, vertical_gain := 1,
    horiz_offset := 0, horiz_interval := 1 }

/-- A sequence-mode frame: 200 samples, two sub-traces, trigger data present. -/
def mkFrame200 : Frame :=
  { desc := mkDesc 200, trg_times := [0, 0], trg_offsets := [0, 0],
    wave_array := List.replicate 200 0 }

/-- A non-sequence frame with a single sample and no trigger data. -/
def mkFrame1 : Frame :=
  { desc := mkDesc 1, trg_times := [], trg_offsets := [], wave_array := [7] }

/-- Two all-success sequence-mode cycles delivering `mkFrame200`. -/
def sched5 : List (ℚ × CycleEvent) :=
  [(0, CycleEvent.ok (fun _ => mkFrame200)), (1, CycleEvent.ok (fun _ => mkFrame200))]

/-- The end-to-end scenario of spec §8.7: `nevents = 4`, applied sequence
count 2, one channel, `wave_array_count = 200`, two all-success cycles. -/
def run5 : LoopState :=
  runLoop 2 4 (initLoopState 4 2 [1] (fun _ => mkDesc 200)) sched5

/-- One store failure on the first cycle, then success: `nevents = 1`,
sequence count 1, one channel. -/
def run4 : LoopState :=
  runLoop 1 1 (initLoopState 1 1 [1] (fun _ => mkDesc 1))
    [(0, CycleEvent.storeFail), (1, CycleEvent.ok (fun _ => mkFrame1))]

/-- A single all-success non-sequence cycle whose frame carries no trigger
data: `nevents = 1`, sequence count 1, one channel. -/
def run3 : LoopState :=
  runLoop 1 1 (initLoopState 1 1 [1] (fun _ => mkDesc 1))
    [(0, CycleEvent.ok (fun _ => mkFrame1))]

/-- A two-channel session (`nevents = 1`, sequence count 1) whose first
cycle fails mid-channel-loop: channel 1 (position 0) was fully written, then
the fetch of channel 2 raised (`done = 1`, `rows = 0`); the retry succeeds.
The retry rewrites channel 1's row 0, so its ghost write count ends at 2. -/
def run1p : LoopState :=
  runLoop 1 1 (initLoopState 1 1 [1, 2] (fun _ => mkDesc 1))
    [(0, CycleEvent.fail (fun _ => mkFrame1) 1 0), (1, CycleEvent.ok (fun _ => mkFrame1))]

/-- A schedule with one trigger-time transport failure (no partial writes)
followed by a successful cycle. -/
def sched1w : List (ℚ × CycleEvent) :=
  [(0, CycleEvent.transportFail), (1, CycleEvent.ok (fun _ => mkFrame1))]

/-- A channel state holding one already-written row `[5, 6]` of width 2. -/
def chPrev : ChannelState :=
  { samples := [[5, 6]]
    vert_offset := [0], vert_scale := [0], horiz_offset := [0], horiz_scale := [0]
    trig_offset := [0], trig_time := [0]
    current_dim := 2
    sampleWrites := fun _ => 0, calibWrites := fun _ => 0
    trigOffsetWrites := fun _ => 0, trigTimeWrites := fun _ => 0 }

deriving instance DecidableEq for Except

deriving instance DecidableEq for SetupResult

set_option maxRecDepth 8000

/-! ### Supporting lemmas -/

/-- Adding a window of length zero changes nothing. -/
theorem addRange_zero (f : ℕ → ℕ) (i : ℕ) : addRange f i 0 = f := by
  funext j
  unfold addRange
  rw [if_neg]
  omega

/-- Bumping the next row extends the window by one. -/
theorem bumpF_addRange (f : ℕ → ℕ) (i m : ℕ) :
    bumpF (addRange f i m) (i + m) = addRange f i (m + 1) := by
  funext j
  simp only [bumpF, addRange]
  split_ifs <;> omega

/-- A clean counter that is 1 below `u` stays clean after writing `[u, u+m)`. -/
theorem goodC_addRange (f : ℕ → ℕ) (u m : ℕ)
    (h : ∀ j, f j = if j < u then 1 else 0) :
    ∀ j, addRange f u m j = if j < u + m then 1 else 0 := by
  intro j
  have hj := h j
  simp only [addRange]
  split_ifs at * <;> omega

/-- Counters never decrease under `addRange`. -/
theorem addRange_le (f : ℕ → ℕ) (i m j : ℕ) : f j ≤ addRange f i m j := by
  unfold addRange
  split_ifs <;> omega

/-- `addRange` touches nothing outside its window. -/
theorem addRange_outside (f : ℕ → ℕ) (i m j : ℕ) (h : j < i ∨ i + m ≤ j) :
    addRange f i m j = f j := by
  unfold addRange
  rw [if_neg]
  omega

/-- A counter at least 1 below `u` stays at least 1 below `u + m` after a
further write window `[u, u+m)`. -/
theorem addRange_ge_one (f : ℕ → ℕ) (u m : ℕ) (h : ∀ j, j < u → 1 ≤ f j) :
    ∀ j, j < u + m → 1 ≤ addRange f u m j := by
  intro j hj
  unfold addRange
  split_ifs with hc
  · omega
  · exact h j (by omega)

/-- `writeRowStep` leaves the ghost sample counter as a single bump. -/
theorem writeRowStep_sampleWrites (fr : Frame) (ns rowLen i : ℕ) (st : ChannelState) (n : ℕ) :
    (writeRowStep fr ns rowLen i st n).sampleWrites = bumpF st.sampleWrites (i + n) := rfl

/-- `writeRowStep` leaves the ghost calibration counter as a single bump. -/
theorem writeRowStep_calibWrites (fr : Frame) (ns rowLen i : ℕ) (st : ChannelState) (n : ℕ) :
    (writeRowStep fr ns rowLen i st n).calibWrites = bumpF st.calibWrites (i + n) := rfl

/-- `writeRowStep` bumps the trigger-offset counter when trigger data exists. -/
theorem writeRowStep_trigOffsetWrites (fr : Frame) (ns rowLen i : ℕ) (st : ChannelState)
    (n : ℕ) (h : 0 < fr.trg_offsets.length) :
    (writeRowStep fr ns rowLen i st n).trigOffsetWrites = bumpF st.trigOffsetWrites (i + n) := by
  show (if 0 < fr.trg_offsets.length then bumpF st.trigOffsetWrites (i + n)
    else st.trigOffsetWrites) = bumpF st.trigOffsetWrites (i + n)
  rw [if_pos h]

/-- `writeRowStep` bumps the trigger-time counter when trigger data exists. -/
theorem writeRowStep_trigTimeWrites (fr : Frame) (ns rowLen i : ℕ) (st : ChannelState)
    (n : ℕ) (h : 0 < fr.trg_times.length) :
    (writeRowStep fr ns rowLen i st n).trigTimeWrites = bumpF st.trigTimeWrites (i + n) := by
  show (if 0 < fr.trg_times.length then bumpF st.trigTimeWrites (i + n)
    else st.trigTimeWrites) = bumpF st.trigTimeWrites (i + n)
  rw [if_pos h]

/-- `writeRowStep` never touches the store width. -/
theorem writeRowStep_current_dim (fr : Frame) (ns rowLen i : ℕ) (st : ChannelState) (n : ℕ) :
    (writeRowStep fr ns rowLen i st n).current_dim = st.current_dim := rfl

/-- Unfolding one sub-trace write. -/
theorem writeRows_succ (fr : Frame) (ns rowLen i m : ℕ) (st : ChannelState) :
    writeRows fr ns rowLen i (m + 1) st
      = writeRowStep fr ns rowLen i (writeRows fr ns rowLen i m st) m := by
  unfold writeRows
  rw [List.range_succ, List.foldl_append, List.foldl_cons, List.foldl_nil]

/-- Writing `m` sub-trace rows bumps the sample counter on `[i, i+m)`. -/
theorem writeRows_sampleWrites (fr : Frame) (ns rowLen i : ℕ) :
    ∀ (m : ℕ) (st : ChannelState),
      (writeRows fr ns rowLen i m st).sampleWrites = addRange st.sampleWrites i m := by
  intro m
  induction m with
  | zero => intro st; exact (addRange_zero st.sampleWrites i).symm
  | succ m ih =>
    intro st
    rw [writeRows_succ, writeRowStep_sampleWrites, ih, bumpF_addRange]

/-- Writing `m` sub-trace rows bumps the calibration counter on `[i, i+m)`. -/
theorem writeRows_calibWrites (fr : Frame) (ns rowLen i : ℕ) :
    ∀ (m : ℕ) (st : ChannelState),
      (writeRows fr ns rowLen i m st).calibWrites = addRange st.calibWrites i m := by
  intro m
  induction m with
  | zero => intro st; exact (addRange_zero st.calibWrites i).symm
  | succ m ih =>
    intro st
    rw [writeRows_succ, writeRowStep_calibWrites, ih, bumpF_addRange]

/-- With trigger data present, the trigger-offset counter is bumped on `[i, i+m)`. -/
theorem writeRows_trigOffsetWrites (fr : Frame) (ns rowLen i : ℕ)
    (h : 0 < fr.trg_offsets.length) :
    ∀ (m : ℕ) (st : ChannelState),
      (writeRows fr ns rowLen i m st).trigOffsetWrites = addRange st.trigOffsetWrites i m := by
  intro m
  induction m with
  | zero => intro st; exact (addRange_zero st.trigOffsetWrites i).symm
  | succ m ih =>
    intro st
    rw [writeRows_succ, writeRowStep_trigOffsetWrites fr ns rowLen i _ m h, ih, bumpF_addRange]

/-- With trigger data present, the trigger-time counter is bumped on `[i, i+m)`. -/
theorem writeRows_trigTimeWrites (fr : Frame) (ns rowLen i : ℕ)
    (h : 0 < fr.trg_times.length) :
    ∀ (m : ℕ) (st : ChannelState),
      (writeRows fr ns rowLen i m st).trigTimeWrites = addRange st.trigTimeWrites i m := by
  intro m
  induction m with
  | zero => intro st; exact (addRange_zero st.trigTimeWrites i).symm
  | succ m ih =>
    intro st
    rw [writeRows_succ, writeRowStep_trigTimeWrites fr ns rowLen i _ m h, ih, bumpF_addRange]

/-- Row writes never change the store width. -/
theorem writeRows_current_dim (fr : Frame) (ns rowLen i : ℕ) :
    ∀ (m : ℕ) (st : ChannelState),
      (writeRows fr ns rowLen i m st).current_dim = st.current_dim := by
  intro m
  induction m with
  | zero => intro st; rfl
  | succ m ih =>
    intro st
    rw [writeRows_succ, writeRowStep_current_dim, ih]

/-- The resize guard computes the maximum of the old and requested widths. -/
theorem ensureWidth_current_dim (st : ChannelState) (w : ℕ) :
    (ensureWidth st w).current_dim = max st.current_dim w := by
  unfold ensureWidth
  split_ifs <;> simp <;> omega

/-- A request at most the current width is a no-op. -/
theorem ensureWidth_noop (st : ChannelState) (w : ℕ) (h : w ≤ st.current_dim) :
    ensureWidth st w = st := by
  unfold ensureWidth
  rw [if_neg]
  omega

/-- The resize guard never touches the ghost counters (sample). -/
theorem ensureWidth_sampleWrites (st : ChannelState) (w : ℕ) :
    (ensureWidth st w).sampleWrites = st.sampleWrites := by
  unfold ensureWidth
  split_ifs <;> rfl

/-- The resize guard never touches the ghost counters (calibration). -/
theorem ensureWidth_calibWrites (st : ChannelState) (w : ℕ) :
    (ensureWidth st w).calibWrites = st.calibWrites := by
  unfold ensureWidth
  split_ifs <;> rfl

/-- The resize guard never touches the ghost counters (trigger offset). -/
theorem ensureWidth_trigOffsetWrites (st : ChannelState) (w : ℕ) :
    (ensureWidth st w).trigOffsetWrites = st.trigOffsetWrites := by
  unfold ensureWidth
  split_ifs <;> rfl

/-- The resize guard never touches the ghost counters (trigger time). -/
theorem ensureWidth_trigTimeWrites (st : ChannelState) (w : ℕ) :
    (ensureWidth st w).trigTimeWrites = st.trigTimeWrites := by
  unfold ensureWidth
  split_ifs <;> rfl

/-- One channel's processing bumps its sample counter exactly on `[i, i+seq)`. -/
theorem processChannel_sampleWrites (seq i : ℕ) (st : ChannelState) (fr : Frame) :
    (processChannel seq i st fr).sampleWrites = addRange st.sampleWrites i seq := by
  unfold processChannel
  rw [writeRows_sampleWrites, ensureWidth_sampleWrites]

/-- One channel's processing bumps its calibration counter exactly on `[i, i+seq)`. -/
theorem processChannel_calibWrites (seq i : ℕ) (st : ChannelState) (fr : Frame) :
    (processChannel seq i st fr).calibWrites = addRange st.calibWrites i seq := by
  unfold processChannel
  rw [writeRows_calibWrites, ensureWidth_calibWrites]

/-- With trigger data supplied, the trigger-offset counter is bumped on `[i, i+seq)`. -/
theorem processChannel_trigOffsetWrites (seq i : ℕ) (st : ChannelState) (fr : Frame)
    (h : 0 < fr.trg_offsets.length) :
    (processChannel seq i st fr).trigOffsetWrites = addRange st.trigOffsetWrites i seq := by
  unfold processChannel
  rw [writeRows_trigOffsetWrites _ _ _ _ h, ensureWidth_trigOffsetWrites]

/-- With trigger data supplied, the trigger-time counter is bumped on `[i, i+seq)`. -/
theorem processChannel_trigTimeWrites (seq i : ℕ) (st : ChannelState) (fr : Frame)
    (h : 0 < fr.trg_times.length) :
    (processChannel seq i st fr).trigTimeWrites = addRange st.trigTimeWrites i seq := by
  unfold processChannel
  rw [writeRows_trigTimeWrites _ _ _ _ h, ensureWidth_trigTimeWrites]

/-- The store width after one channel's processing: the old width grows to
`wave_array_count // sequence_count` exactly when the frame reports more
samples per sub-trace, and never shrinks. -/
theorem processChannel_current_dim (seq i : ℕ) (st : ChannelState) (fr : Frame) :
    (processChannel seq i st fr).current_dim
      = max st.current_dim (fr.desc.wave_array_count / seq) := by
  unfold processChannel
  rw [writeRows_current_dim, ensureWidth_current_dim, one_mul]

/-- A partially executed channel bumps its sample counter exactly on the
rows it managed to write. -/
theorem processChannelPartial_sampleWrites (seq i rows : ℕ) (st : ChannelState) (fr : Frame) :
    (processChannelPartial seq i rows st fr).sampleWrites
      = addRange st.sampleWrites i (min rows seq) := by
  unfold processChannelPartial
  rw [writeRows_sampleWrites, ensureWidth_sampleWrites]

/-- A partially executed channel still grows the width like a full one. -/
theorem processChannelPartial_current_dim (seq i rows : ℕ) (st : ChannelState) (fr : Frame) :
    (processChannelPartial seq i rows st fr).current_dim
      = max st.current_dim (fr.desc.wave_array_count / seq) := by
  unfold processChannelPartial
  rw [writeRows_current_dim, ensureWidth_current_dim, one_mul]

/-- Processing any channel list never decreases any channel's ghost sample
counter (pointwise, no duplicate-freeness needed). -/
theorem processAll_sampleWrites_le (seq i : ℕ) (frames : ℕ → Frame) :
    ∀ (ids : List ℕ) (m : ℕ → ChannelState) (ch j : ℕ),
      (m ch).sampleWrites j ≤ ((processAll seq i ids frames m) ch).sampleWrites j := by
  intro ids
  induction ids with
  | nil => intro m ch j; exact le_refl _
  | cons a rest ih =>
    intro m ch j
    show (m ch).sampleWrites j
      ≤ ((processAll seq i rest frames
          (updF m a (processChannel seq i (m a) (frames a)))) ch).sampleWrites j
    refine le_trans ?_ (ih _ ch j)
    unfold updF
    split_ifs with hc
    · subst hc
      rw [processChannel_sampleWrites]
      exact addRange_le _ _ _ _
    · exact le_refl _

/-- Processing any channel list never decreases any channel's width
(pointwise, no duplicate-freeness needed). -/
theorem processAll_width_le (seq i : ℕ) (frames : ℕ → Frame) :
    ∀ (ids : List ℕ) (m : ℕ → ChannelState) (ch : ℕ),
      (m ch).current_dim ≤ ((processAll seq i ids frames m) ch).current_dim := by
  intro ids
  induction ids with
  | nil => intro m ch; exact le_refl _
  | cons a rest ih =>
    intro m ch
    show (m ch).current_dim
      ≤ ((processAll seq i rest frames
          (updF m a (processChannel seq i (m a) (frames a)))) ch).current_dim
    refine le_trans ?_ (ih _ ch)
    unfold updF
    split_ifs with hc
    · subst hc
      rw [processChannel_current_dim]
      exact le_max_left _ _
    · exact le_refl _

/-- Processing any channel list touches no sample counter outside the cycle
window `[i, i+seq)`. -/
theorem processAll_sampleWrites_outside (seq i : ℕ) (frames : ℕ → Frame) :
    ∀ (ids : List ℕ) (m : ℕ → ChannelState) (ch j : ℕ), j < i ∨ i + seq ≤ j →
      ((processAll seq i ids frames m) ch).sampleWrites j = (m ch).sampleWrites j := by
  intro ids
  induction ids with
  | nil => intro m ch j _; rfl
  | cons a rest ih =>
    intro m ch j hj
    show ((processAll seq i rest frames
        (updF m a (processChannel seq i (m a) (frames a)))) ch).sampleWrites j
      = (m ch).sampleWrites j
    rw [ih _ ch j hj]
    unfold updF
    split_ifs with hc
    · subst hc
      rw [processChannel_sampleWrites]
      exact addRange_outside _ _ _ _ hj
    · rfl

/-- Point update: any channel's sample counter is bounded by the updated
map's when the new value dominates the old at the updated key. -/
theorem updF_sampleWrites_le (m : ℕ → ChannelState) (c : ℕ) (v : ChannelState)
    (j : ℕ) (h : (m c).sampleWrites j ≤ v.sampleWrites j) (ch : ℕ) :
    (m ch).sampleWrites j ≤ ((updF m c v) ch).sampleWrites j := by
  unfold updF
  split_ifs with hc
  · subst hc
    exact h
  · exact le_refl _

/-- Point update: widths only grow when the new value's width dominates. -/
theorem updF_width_le (m : ℕ → ChannelState) (c : ℕ) (v : ChannelState)
    (h : (m c).current_dim ≤ v.current_dim) (ch : ℕ) :
    (m ch).current_dim ≤ ((updF m c v) ch).current_dim := by
  unfold updF
  split_ifs with hc
  · subst hc
    exact h
  · exact le_refl _

/-- Point update: a counter entry the new value leaves unchanged stays
unchanged for every channel. -/
theorem updF_sampleWrites_eq (m : ℕ → ChannelState) (c : ℕ) (v : ChannelState)
    (j : ℕ) (h : v.sampleWrites j = (m c).sampleWrites j) (ch : ℕ) :
    ((updF m c v) ch).sampleWrites j = (m ch).sampleWrites j := by
  unfold updF
  split_ifs with hc
  · subst hc
    exact h
  · rfl

/-- A mid-cycle failure's partial effect never decreases any channel's ghost
sample counter. -/
theorem processPartial_sampleWrites_le (seq i : ℕ) (ids : List ℕ) (frames : ℕ → Frame)
    (done rows : ℕ) (m : ℕ → ChannelState) (ch j : ℕ) :
    (m ch).sampleWrites j
      ≤ ((processPartial seq i ids frames done rows m) ch).sampleWrites j := by
  have hbase := processAll_sampleWrites_le seq i frames (ids.take done) m ch j
  unfold processPartial
  cases rows with
  | zero => exact hbase
  | succ r =>
    cases hh : (ids.drop done).head? with
    | none => exact hbase
    | some c =>
      refine le_trans hbase ?_
      exact updF_sampleWrites_le (processAll seq i (ids.take done) frames m) c
        (processChannelPartial seq i (r + 1)
          (processAll seq i (ids.take done) frames m c) (frames c)) j
        (by rw [processChannelPartial_sampleWrites]; exact addRange_le _ _ _ _) ch

/-- A mid-cycle failure's partial effect never decreases any channel's
width. -/
theorem processPartial_width_le (seq i : ℕ) (ids : List ℕ) (frames : ℕ → Frame)
    (done rows : ℕ) (m : ℕ → ChannelState) (ch : ℕ) :
    (m ch).current_dim ≤ ((processPartial seq i ids frames done rows m) ch).current_dim := by
  have hbase := processAll_width_le seq i frames (ids.take done) m ch
  unfold processPartial
  cases rows with
  | zero => exact hbase
  | succ r =>
    cases hh : (ids.drop done).head? with
    | none => exact hbase
    | some c =>
      refine le_trans hbase ?_
      exact updF_width_le (processAll seq i (ids.take done) frames m) c
        (processChannelPartial seq i (r + 1)
          (processAll seq i (ids.take done) frames m c) (frames c))
        (by rw [processChannelPartial_current_dim]; exact le_max_left _ _) ch

/-- A mid-cycle failure writes sample rows only inside the cycle window
`[i, i+seq)` — exactly the indices its successful retry overwrites. -/
theorem processPartial_sampleWrites_outside (seq i : ℕ) (ids : List ℕ) (frames : ℕ → Frame)
    (done rows : ℕ) (m : ℕ → ChannelState) (ch j : ℕ) (hj : j < i ∨ i + seq ≤ j) :
    ((processPartial seq i ids frames done rows m) ch).sampleWrites j
      = (m ch).sampleWrites j := by
  have hbase := processAll_sampleWrites_outside seq i frames (ids.take done) m ch j hj
  unfold processPartial
  cases rows with
  | zero => exact hbase
  | succ r =>
    cases hh : (ids.drop done).head? with
    | none => exact hbase
    | some c =>
      refine Eq.trans ?_ hbase
      exact updF_sampleWrites_eq (processAll seq i (ids.take done) frames m) c
        (processChannelPartial seq i (r + 1)
          (processAll seq i (ids.take done) frames m c) (frames c)) j
        (by
          rw [processChannelPartial_sampleWrites]
          exact addRange_outside _ _ _ _ (by omega)) ch

/-- A mid-cycle failure that wrote no channel and no row leaves the channel
map untouched. -/
theorem processPartial_zero (seq i : ℕ) (ids : List ℕ) (frames : ℕ → Frame)
    (m : ℕ → ChannelState) : processPartial seq i ids frames 0 0 m = m := rfl

/-- Channels not in the processed list are untouched. -/
theorem processAll_not_mem (seq i : ℕ) (frames : ℕ → Frame) :
    ∀ (ids : List ℕ) (m : ℕ → ChannelState) (ch : ℕ), ch ∉ ids →
      processAll seq i ids frames m ch = m ch := by
  intro ids
  induction ids with
  | nil => intro m ch _; rfl
  | cons a rest ih =>
    intro m ch h
    have hne : ch ≠ a := fun hc => h (hc ▸ List.mem_cons_self a rest)
    have hrest : ch ∉ rest := fun hc => h (List.mem_cons_of_mem a hc)
    show processAll seq i rest frames
      (updF m a (processChannel seq i (m a) (frames a))) ch = m ch
    rw [ih _ ch hrest]
    unfold updF
    rw [if_neg hne]

/-- A channel in a duplicate-free channel list is processed exactly once,
against its own frame. -/
theorem processAll_mem (seq i : ℕ) (frames : ℕ → Frame) :
    ∀ (ids : List ℕ) (m : ℕ → ChannelState) (ch : ℕ), ids.Nodup → ch ∈ ids →
      processAll seq i ids frames m ch = processChannel seq i (m ch) (frames ch) := by
  intro ids
  induction ids with
  | nil => intro m ch _ h; cases h
  | cons a rest ih =>
    intro m ch hnd hmem
    have hnd2 := List.nodup_cons.mp hnd
    show processAll seq i rest frames
      (updF m a (processChannel seq i (m a) (frames a))) ch
      = processChannel seq i (m ch) (frames ch)
    rcases List.mem_cons.mp hmem with hca | hcr
    · subst hca
      rw [processAll_not_mem seq i frames rest _ ch hnd2.1]
      unfold updF
      rw [if_pos rfl]
    · have hne : ch ≠ a := fun hc => hnd2.1 (hc ▸ hcr)
      rw [ih _ ch hnd2.2 hcr]
      unfold updF
      rw [if_neg hne]

/-- A failed cycle (transport) advances nothing and writes no channel data. -/
theorem stepCycle_transportFail (seq : ℕ) (st : LoopState) (t : ℚ) :
    (stepCycle seq st t CycleEvent.transportFail).i = st.i
    ∧ (stepCycle seq st t CycleEvent.transportFail).chans = st.chans
    ∧ (stepCycle seq st t CycleEvent.transportFail).chanIds = st.chanIds
    ∧ (stepCycle seq st t CycleEvent.transportFail).cycles = st.cycles + 1 :=
  ⟨rfl, rfl, rfl, rfl⟩

/-- A failed cycle (store) advances nothing and writes no channel data. -/
theorem stepCycle_storeFail (seq : ℕ) (st : LoopState) (t : ℚ) :
    (stepCycle seq st t CycleEvent.storeFail).i = st.i
    ∧ (stepCycle seq st t CycleEvent.storeFail).chans = st.chans
    ∧ (stepCycle seq st t CycleEvent.storeFail).chanIds = st.chanIds
    ∧ (stepCycle seq st t CycleEvent.storeFail).cycles = st.cycles + 1 :=
  ⟨rfl, rfl, rfl, rfl⟩

/-- A successful cycle writes all channels and advances by the sequence count. -/
theorem stepCycle_ok (seq : ℕ) (st : LoopState) (t : ℚ) (frames : ℕ → Frame) :
    (stepCycle seq st t (CycleEvent.ok frames)).i = st.i + seq
    ∧ (stepCycle seq st t (CycleEvent.ok frames)).chans
        = processAll seq st.i st.chanIds frames st.chans
    ∧ (stepCycle seq st t (CycleEvent.ok frames)).chanIds = st.chanIds
    ∧ (stepCycle seq st t (CycleEvent.ok frames)).cycles = st.cycles + 1 :=
  ⟨rfl, rfl, rfl, rfl⟩

/-- No event in a schedule is counted twice: cons with a success. -/
theorem okCount_cons_ok (t : ℚ) (frames : ℕ → Frame) (rest : List (ℚ × CycleEvent)) :
    okCount ((t, CycleEvent.ok frames) :: rest) = okCount rest + 1 := by
  simp [okCount, List.filter, CycleEvent.isOkEv]

/-- Transport failures are not successes. -/
theorem okCount_cons_transportFail (t : ℚ) (rest : List (ℚ × CycleEvent)) :
    okCount ((t, CycleEvent.transportFail) :: rest) = okCount rest := by
  simp [okCount, List.filter, CycleEvent.isOkEv]

/-- Store failures are not successes. -/
theorem okCount_cons_storeFail (t : ℚ) (rest : List (ℚ × CycleEvent)) :
    okCount ((t, CycleEvent.storeFail) :: rest) = okCount rest := by
  simp [okCount, List.filter, CycleEvent.isOkEv]

/-- A mid-cycle failure advances nothing; its store effect is the partial
channel processing, confined by the lemmas on `processPartial`. -/
theorem stepCycle_fail (seq : ℕ) (st : LoopState) (t : ℚ) (frames : ℕ → Frame)
    (done rows : ℕ) :
    (stepCycle seq st t (CycleEvent.fail frames done rows)).i = st.i
    ∧ (stepCycle seq st t (CycleEvent.fail frames done rows)).chans
        = processPartial seq st.i st.chanIds frames done rows st.chans
    ∧ (stepCycle seq st t (CycleEvent.fail frames done rows)).chanIds = st.chanIds
    ∧ (stepCycle seq st t (CycleEvent.fail frames done rows)).cycles = st.cycles + 1 :=
  ⟨rfl, rfl, rfl, rfl⟩

/-- Mid-cycle failures are not successes. -/
theorem okCount_cons_fail (t : ℚ) (frames : ℕ → Frame) (done rows : ℕ)
    (rest : List (ℚ × CycleEvent)) :
    okCount ((t, CycleEvent.fail frames done rows) :: rest) = okCount rest := by
  simp [okCount, List.filter, CycleEvent.isOkEv]

/-- A successful cycle trivially performs no partial failed-cycle writes. -/
theorem eventNoPartial_of_isOkEv (e : ℚ × CycleEvent) (h : e.2.isOkEv = true) :
    eventNoPartial e = true := by
  rcases e with ⟨t, ev⟩
  cases ev with
  | transportFail => rfl
  | storeFail => rfl
  | fail frames done rows => exact absurd h (by simp [CycleEvent.isOkEv])
  | ok frames => rfl

/-- An all-success schedule has as many successes as elements. -/
theorem okCount_all_ok : ∀ (s : List (ℚ × CycleEvent)),
    (∀ e ∈ s, e.2.isOkEv = true) → okCount s = s.length := by
  intro s
  induction s with
  | nil => intro _; rfl
  | cons e rest ih =>
    intro h
    have he := h e (List.mem_cons_self e rest)
    have hr := ih (fun x hx => h x (List.mem_cons_of_mem e hx))
    simp only [okCount, List.filter, he, List.length_cons]
    simp only [okCount] at hr
    rw [hr]

/-- The empty schedule leaves the state unchanged. -/
theorem runLoop_nil (seq nev : ℕ) (st : LoopState) : runLoop seq nev st [] = st := rfl

/-- One unfolding of the `while` loop. -/
theorem runLoop_cons (seq nev : ℕ) (st : LoopState) (e : ℚ × CycleEvent)
    (rest : List (ℚ × CycleEvent)) :
    runLoop seq nev st (e :: rest)
      = if st.i < nev then runLoop seq nev (stepCycle seq st e.1 e.2) rest else st := rfl

/-- If the schedule supplies enough successful cycles, the loop ends with
`i = nevents` exactly (no overshoot, no shortfall), for `nevents = seq * k`. -/
theorem runLoop_i_eq (seq k : ℕ) (hseq : 0 < seq) :
    ∀ (s : List (ℚ × CycleEvent)) (st : LoopState) (c : ℕ),
      st.i = seq * c → c ≤ k → k ≤ c + okCount s →
      (runLoop seq (seq * k) st s).i = seq * k := by
  intro s
  induction s with
  | nil =>
    intro st c h1 h2 h3
    have h0 : okCount ([] : List (ℚ × CycleEvent)) = 0 := rfl
    rw [h0] at h3
    have hck : c = k := le_antisymm h2 (by omega)
    rw [runLoop_nil, h1, hck]
  | cons e rest ih =>
    intro st c h1 h2 h3
    rw [runLoop_cons]
    by_cases hlt : st.i < seq * k
    · rw [if_pos hlt]
      rcases e with ⟨t, ev⟩
      have hck : c < k := by
        rw [h1] at hlt
        exact Nat.lt_of_mul_lt_mul_left hlt
      cases ev with
      | transportFail =>
        refine ih _ c ?_ h2 ?_
        · rw [(stepCycle_transportFail seq st t).1, h1]
        · rw [okCount_cons_transportFail] at h3; exact h3
      | storeFail =>
        refine ih _ c ?_ h2 ?_
        · rw [(stepCycle_storeFail seq st t).1, h1]
        · rw [okCount_cons_storeFail] at h3; exact h3
      | fail frames done rows =>
        refine ih _ c ?_ h2 ?_
        · rw [(stepCycle_fail seq st t frames done rows).1, h1]
        · rw [okCount_cons_fail] at h3; exact h3
      | ok frames =>
        refine ih _ (c + 1) ?_ (by omega) ?_
        · rw [(stepCycle_ok seq st t frames).1, h1, Nat.mul_succ]
        · rw [okCount_cons_ok] at h3; omega
    · rw [if_neg hlt]
      have hge : seq * k ≤ st.i := Nat.le_of_not_lt hlt
      rw [h1] at hge ⊢
      have hkc : k ≤ c := Nat.le_of_mul_le_mul_left hge hseq
      have hck : c = k := le_antisymm h2 hkc
      rw [hck]

/-- Generic ghost-counter invariant: if processing one channel always turns a
counter into `addRange` over the cycle's window (under a per-frame condition
`P` that every scheduled success satisfies), then a run that completes the
full `seq * k` events leaves that counter at exactly 1 on every row below
`seq * k` and 0 elsewhere — no duplicated writes, no skipped rows. -/
theorem runLoop_counter (seq k : ℕ) (hseq : 0 < seq) (ids : List ℕ) (hnd : ids.Nodup)
    (π : ChannelState → ℕ → ℕ) (P : Frame → Prop)
    (hstep : ∀ (i : ℕ) (cs : ChannelState) (fr : Frame), P fr →
      π (processChannel seq i cs fr) = addRange (π cs) i seq) :
    ∀ (s : List (ℚ × CycleEvent)) (st : LoopState) (c : ℕ),
      st.chanIds = ids → st.i = seq * c → c ≤ k → k ≤ c + okCount s →
      (∀ e ∈ s, eventP P ids e) →
      (∀ e ∈ s, eventNoPartial e = true) →
      (∀ ch ∈ ids, ∀ j, π (st.chans ch) j = if j < seq * c then 1 else 0) →
      ∀ ch ∈ ids, ∀ j,
        π ((runLoop seq (seq * k) st s).chans ch) j = if j < seq * k then 1 else 0 := by
  intro s
  induction s with
  | nil =>
    intro st c _ _ h2 h3 _ _ hgood ch hch j
    have h0 : okCount ([] : List (ℚ × CycleEvent)) = 0 := rfl
    rw [h0] at h3
    have hck : c = k := le_antisymm h2 (by omega)
    rw [runLoop_nil]
    have hg := hgood ch hch j
    rw [hck] at hg
    exact hg
  | cons e rest ih =>
    intro st c hid h1 h2 h3 h4 h5 hgood ch hch j
    rw [runLoop_cons]
    by_cases hlt : st.i < seq * k
    · rw [if_pos hlt]
      rcases e with ⟨t, ev⟩
      have hck : c < k := by
        rw [h1] at hlt
        exact Nat.lt_of_mul_lt_mul_left hlt
      have h4r : ∀ x ∈ rest, eventP P ids x := fun x hx => h4 x (List.mem_cons_of_mem _ hx)
      have h5r : ∀ x ∈ rest, eventNoPartial x = true :=
        fun x hx => h5 x (List.mem_cons_of_mem _ hx)
      cases ev with
      | transportFail =>
        refine ih _ c ?_ ?_ h2 ?_ h4r h5r ?_ ch hch j
        · rw [(stepCycle_transportFail seq st t).2.2.1]; exact hid
        · rw [(stepCycle_transportFail seq st t).1]; exact h1
        · rw [okCount_cons_transportFail] at h3; exact h3
        · intro ch2 hch2 j2
          rw [(stepCycle_transportFail seq st t).2.1]
          exact hgood ch2 hch2 j2
      | storeFail =>
        refine ih _ c ?_ ?_ h2 ?_ h4r h5r ?_ ch hch j
        · rw [(stepCycle_storeFail seq st t).2.2.1]; exact hid
        · rw [(stepCycle_storeFail seq st t).1]; exact h1
        · rw [okCount_cons_storeFail] at h3; exact h3
        · intro ch2 hch2 j2
          rw [(stepCycle_storeFail seq st t).2.1]
          exact hgood ch2 hch2 j2
      | fail frames done rows =>
        have hnp0 := h5 _ (List.mem_cons_self _ _)
        simp only [eventNoPartial, Bool.and_eq_true, beq_iff_eq] at hnp0
        obtain ⟨hd0, hr0⟩ := hnp0
        subst hd0
        subst hr0
        refine ih _ c ?_ ?_ h2 ?_ h4r h5r ?_ ch hch j
        · rw [(stepCycle_fail seq st t frames 0 0).2.2.1]; exact hid
        · rw [(stepCycle_fail seq st t frames 0 0).1]; exact h1
        · rw [okCount_cons_fail] at h3; exact h3
        · intro ch2 hch2 j2
          rw [(stepCycle_fail seq st t frames 0 0).2.1, processPartial_zero]
          exact hgood ch2 hch2 j2
      | ok frames =>
        refine ih _ (c + 1) ?_ ?_ (by omega) ?_ h4r h5r ?_ ch hch j
        · rw [(stepCycle_ok seq st t frames).2.2.1]; exact hid
        · rw [(stepCycle_ok seq st t frames).1, h1, Nat.mul_succ]
        · rw [okCount_cons_ok] at h3; omega
        · intro ch2 hch2 j2
          rw [(stepCycle_ok seq st t frames).2.1, hid,
            processAll_mem seq st.i frames ids st.chans ch2 hnd hch2]
          have hPf : P (frames ch2) := by
            have hP := h4 _ (List.mem_cons_self _ _)
            exact hP ch2 hch2
          rw [hstep st.i (st.chans ch2) (frames ch2) hPf, h1, Nat.mul_succ]
          exact goodC_addRange (π (st.chans ch2)) (seq * c) seq
            (fun jj => hgood ch2 hch2 jj) j2
    · rw [if_neg hlt]
      have hge : seq * k ≤ st.i := Nat.le_of_not_lt hlt
      rw [h1] at hge
      have hkc : k ≤ c := Nat.le_of_mul_le_mul_left hge hseq
      have hck : c = k := le_antisymm h2 hkc
      have hg := hgood ch hch j
      rw [hck] at hg
      exact hg

/-- On an all-success schedule long enough to finish, the loop executes
exactly `k - c` further trigger cycles, for `nevents = seq * k`. -/
theorem runLoop_cycles (seq k : ℕ) (hseq : 0 < seq) :
    ∀ (s : List (ℚ × CycleEvent)) (st : LoopState) (c : ℕ),
      (∀ e ∈ s, e.2.isOkEv = true) →
      st.i = seq * c → c ≤ k → k ≤ c + s.length →
      (runLoop seq (seq * k) st s).cycles = st.cycles + (k - c) := by
  intro s
  induction s with
  | nil =>
    intro st c _ _ h2 h3
    simp only [List.length_nil, Nat.add_zero] at h3
    have hkc : k - c = 0 := by omega
    rw [runLoop_nil, hkc, Nat.add_zero]
  | cons e rest ih =>
    intro st c hall h1 h2 h3
    rw [runLoop_cons]
    by_cases hlt : st.i < seq * k
    · rw [if_pos hlt]
      have hck : c < k := by
        rw [h1] at hlt
        exact Nat.lt_of_mul_lt_mul_left hlt
      rcases e with ⟨t, ev⟩
      cases ev with
      | transportFail =>
        exact absurd (hall _ (List.mem_cons_self _ _)) (by simp [CycleEvent.isOkEv])
      | storeFail =>
        exact absurd (hall _ (List.mem_cons_self _ _)) (by simp [CycleEvent.isOkEv])
      | fail frames done rows =>
        exact absurd (hall _ (List.mem_cons_self _ _)) (by simp [CycleEvent.isOkEv])
      | ok frames =>
        rw [ih _ (c + 1) (fun x hx => hall x (List.mem_cons_of_mem _ hx))
          (by rw [(stepCycle_ok seq st t frames).1, h1, Nat.mul_succ]) (by omega)
          (by simp only [List.length_cons] at h3; omega)]
        rw [(stepCycle_ok seq st t frames).2.2.2]
        omega
    · rw [if_neg hlt]
      have hge : seq * k ≤ st.i := Nat.le_of_not_lt hlt
      rw [h1] at hge
      have hkc : k ≤ c := Nat.le_of_mul_le_mul_left hge hseq
      have hck : k - c = 0 := by omega
      rw [hck, Nat.add_zero]

/-- The per-channel store width never decreases over a run. -/
theorem runLoop_width (seq nev : ℕ) :
    ∀ (s : List (ℚ × CycleEvent)) (st : LoopState) (ch : ℕ),
      (st.chans ch).current_dim ≤ ((runLoop seq nev st s).chans ch).current_dim := by
  intro s
  induction s with
  | nil => intro st ch; rw [runLoop_nil]
  | cons e rest ih =>
    intro st ch
    rw [runLoop_cons]
    by_cases hlt : st.i < nev
    · rw [if_pos hlt]
      refine le_trans ?_ (ih (stepCycle seq st e.1 e.2) ch)
      rcases e with ⟨t, ev⟩
      cases ev with
      | transportFail => exact le_of_eq (by rw [(stepCycle_transportFail seq st t).2.1])
      | storeFail => exact le_of_eq (by rw [(stepCycle_storeFail seq st t).2.1])
      | fail frames done rows =>
        rw [(stepCycle_fail seq st t frames done rows).2.1]
        exact processPartial_width_le seq st.i st.chanIds frames done rows st.chans ch
      | ok frames =>
        rw [(stepCycle_ok seq st t frames).2.1]
        exact processAll_width_le seq st.i frames st.chanIds st.chans ch
    · rw [if_neg hlt]

/-- Under any schedule with enough successful cycles, the run completes all
`seq * k` events and every completed row of every active channel has been
written at least once — partial writes by failed cycles can only add
further writes at the same indices, never remove any. -/
theorem runLoop_sample_ge (seq k : ℕ) (hseq : 0 < seq) (ids : List ℕ) (hnd : ids.Nodup) :
    ∀ (s : List (ℚ × CycleEvent)) (st : LoopState) (c : ℕ),
      st.chanIds = ids → st.i = seq * c → c ≤ k → k ≤ c + okCount s →
      (∀ ch ∈ ids, ∀ j, j < seq * c → 1 ≤ (st.chans ch).sampleWrites j) →
      ∀ ch ∈ ids, ∀ j, j < seq * k →
        1 ≤ ((runLoop seq (seq * k) st s).chans ch).sampleWrites j := by
  intro s
  induction s with
  | nil =>
    intro st c _ _ h2 h3 hgood ch hch j hj
    have h0 : okCount ([] : List (ℚ × CycleEvent)) = 0 := rfl
    rw [h0] at h3
    have hck : c = k := le_antisymm h2 (by omega)
    rw [runLoop_nil]
    exact hgood ch hch j (by rw [hck]; exact hj)
  | cons e rest ih =>
    intro st c hid h1 h2 h3 hgood ch hch j hj
    rw [runLoop_cons]
    by_cases hlt : st.i < seq * k
    · rw [if_pos hlt]
      rcases e with ⟨t, ev⟩
      have hck : c < k := by
        rw [h1] at hlt
        exact Nat.lt_of_mul_lt_mul_left hlt
      cases ev with
      | transportFail =>
        refine ih _ c ?_ ?_ h2 ?_ ?_ ch hch j hj
        · rw [(stepCycle_transportFail seq st t).2.2.1]; exact hid
        · rw [(stepCycle_transportFail seq st t).1]; exact h1
        · rw [okCount_cons_transportFail] at h3; exact h3
        · intro ch2 hch2 j2 hj2
          rw [(stepCycle_transportFail seq st t).2.1]
          exact hgood ch2 hch2 j2 hj2
      | storeFail =>
        refine ih _ c ?_ ?_ h2 ?_ ?_ ch hch j hj
        · rw [(stepCycle_storeFail seq st t).2.2.1]; exact hid
        · rw [(stepCycle_storeFail seq st t).1]; exact h1
        · rw [okCount_cons_storeFail] at h3; exact h3
        · intro ch2 hch2 j2 hj2
          rw [(stepCycle_storeFail seq st t).2.1]
          exact hgood ch2 hch2 j2 hj2
      | fail frames done rows =>
        refine ih _ c ?_ ?_ h2 ?_ ?_ ch hch j hj
        · rw [(stepCycle_fail seq st t frames done rows).2.2.1]; exact hid
        · rw [(stepCycle_fail seq st t frames done rows).1]; exact h1
        · rw [okCount_cons_fail] at h3; exact h3
        · intro ch2 hch2 j2 hj2
          rw [(stepCycle_fail seq st t frames done rows).2.1]
          exact le_trans (hgood ch2 hch2 j2 hj2)
            (processPartial_sampleWrites_le seq st.i st.chanIds frames done rows st.chans ch2 j2)
      | ok frames =>
        refine ih _ (c + 1) ?_ ?_ (by omega) ?_ ?_ ch hch j hj
        · rw [(stepCycle_ok seq st t frames).2.2.1]; exact hid
        · rw [(stepCycle_ok seq st t frames).1, h1, Nat.mul_succ]
        · rw [okCount_cons_ok] at h3; omega
        · intro ch2 hch2 j2 hj2
          rw [(stepCycle_ok seq st t frames).2.1, hid,
            processAll_mem seq st.i frames ids st.chans ch2 hnd hch2,
            processChannel_sampleWrites, h1]
          refine addRange_ge_one _ (seq * c) seq (fun jj hjj => hgood ch2 hch2 jj hjj) j2 ?_
          rw [Nat.mul_succ] at hj2
          exact hj2
    · rw [if_neg hlt]
      have hge : seq * k ≤ st.i := Nat.le_of_not_lt hlt
      rw [h1] at hge
      have hkc : k ≤ c := Nat.le_of_mul_le_mul_left hge hseq
      have hck : c = k := le_antisymm h2 hkc
      exact hgood ch hch j (by rw [hck]; exact hj)

/-- The trivial per-frame condition holds of every event. -/
theorem eventP_true (ids : List ℕ) : ∀ e : ℚ × CycleEvent, eventP (fun _ => True) ids e := by
  intro e
  rcases e with ⟨t, ev⟩
  cases ev with
  | transportFail => trivial
  | storeFail => trivial
  | fail frames done rows => trivial
  | ok frames => exact fun ch _ => trivial

/-- Reading anywhere in an all-zero row gives zero. -/
theorem replicate_getD_zero : ∀ (w j : ℕ), (List.replicate w (0 : ℤ)).getD j 0 = 0 := by
  intro w
  induction w with
  | zero => intro j; rfl
  | succ w ih =>
    intro j
    cases j with
    | zero => rfl
    | succ j => exact ih j

/-- Reading below the kept length commutes with `take`. -/
theorem take_getD : ∀ (l : List ℤ) (n j : ℕ), j < n → (l.take n).getD j 0 = l.getD j 0 := by
  intro l
  induction l with
  | nil => intro n j _; rw [List.take_nil]
  | cons a l ih =>
    intro n j hj
    cases n with
    | zero => omega
    | succ n =>
      rw [List.take_succ_cons]
      cases j with
      | zero => rfl
      | succ j => exact ih n j (by omega)

/-- Reading a zero-padded row: original entry below the source length, zero
in the padded tail. -/
theorem padTo_getD : ∀ (l : List ℤ) (w j : ℕ), j < w →
    (padTo w l).getD j 0 = if j < l.length then l.getD j 0 else 0 := by
  intro l
  induction l with
  | nil =>
    intro w j hj
    show (([] : List ℤ).take w ++ List.replicate (w - ([] : List ℤ).length) 0).getD j 0 = _
    rw [List.take_nil, List.nil_append, List.length_nil, Nat.sub_zero, if_neg (by omega)]
    exact replicate_getD_zero w j
  | cons a l ih =>
    intro w j hj
    cases w with
    | zero => omega
    | succ w =>
      have hstep : padTo (w + 1) (a :: l) = a :: padTo w l := by
        unfold padTo
        rw [List.take_succ_cons, List.length_cons, Nat.succ_sub_succ, List.cons_append]
      rw [hstep]
      cases j with
      | zero =>
        rw [if_pos (by simp)]
        rfl
      | succ j =>
        have h1 : (a :: padTo w l).getD (j + 1) 0 = (padTo w l).getD j 0 := rfl
        rw [h1, ih w j (by omega)]
        simp only [List.length_cons]
        by_cases hl : j < l.length
        · rw [if_pos hl, if_pos (by omega)]
          rfl
        · rw [if_neg hl, if_neg (by omega)]

/-- Zero-padding every row of a matrix keeps each original row as a prefix. -/
theorem map_padTo_prefix : ∀ (l : List (List ℤ)) (w d : ℕ),
    (∀ r ∈ l, r.length = d) → d ≤ w →
    ∀ j, l.getD j [] <+: (l.map (padTo w)).getD j [] := by
  intro l
  induction l with
  | nil => intro w d _ _ j; exact List.prefix_refl _
  | cons r t ih =>
    intro w d hlen hdw j
    cases j with
    | zero =>
      have hr : r.length = d := hlen r (List.mem_cons_self _ _)
      show r <+: padTo w r
      unfold padTo
      rw [List.take_of_length_le (by omega)]
      exact ⟨List.replicate (w - r.length) 0, rfl⟩
    | succ j =>
      exact ih w d (fun x hx => hlen x (List.mem_cons_of_mem _ hx)) hdw j

/-- A resize preserves every previously written row (as a prefix of the new,
zero-padded row). -/
theorem ensureWidth_prefix (st : ChannelState) (w : ℕ)
    (h : ∀ r ∈ st.samples, r.length = st.current_dim) (j : ℕ) :
    st.samples.getD j [] <+: (ensureWidth st w).samples.getD j [] := by
  unfold ensureWidth
  split_ifs with hw
  · exact map_padTo_prefix st.samples w st.current_dim h (by omega) j
  · exact List.prefix_refl _

/-! ### Claims -/

/-- Claim C1 counterexample: the claim's "no duplicated indices / no data
written twice" fails for multi-channel sessions, because the broad `except`
at line 286 can fire mid-channel-loop.  In a two-channel run (`nevents = 1`,
sequence count 1) whose first cycle fully writes channel 1 and then fails
fetching channel 2, the retry rewrites channel 1's row 0: its ghost write
count ends at 2, not 1, while channel 2's is 1; the index bookkeeping is
still exact (`i = 1`). -/
theorem claim1_counterexample :
    run1p.i = 1
    ∧ (run1p.chans 1).sampleWrites 0 = 2
    ∧ (run1p.chans 2).sampleWrites 0 = 1
    ∧ ¬ ((run1p.chans 1).sampleWrites 0 = 1) := by
  decide

/-- Claim C1 (amended): the absolute event index `i` advances by exactly the
applied `sequence_count` only after a trigger/fetch/write cycle for all
active channels completes without error; a failed cycle — whether the
exception fires at the trigger (`transportFail`/`storeFail`) or
mid-channel-loop after some channels' rows were already written (`fail`) —
clears the instrument error state (instrument-side `scope.clear()`, no
further store effect) and retries the same `i` with no advancement, and any
partial writes it made lie inside the same window `[i, i+seq)` that the
successful retry overwrites; once failures stop and enough successful
cycles have occurred, the total completed events equals `nevents = seq * k`
with no skipped indices, every completed row written at least once, and
written exactly once when no failed cycle performed partial channel writes
(in particular on failure-free schedules). -/
theorem claim1_amended (seq k : ℕ) (ids : List ℕ) (descs : ℕ → WaveDesc)
    (s : List (ℚ × CycleEvent)) (hseq : 0 < seq) (hnd : ids.Nodup)
    (hok : k ≤ okCount s) :
    (∀ (st : LoopState) (t : ℚ),
      (stepCycle seq st t CycleEvent.transportFail).i = st.i
      ∧ (stepCycle seq st t CycleEvent.transportFail).chans = st.chans)
    ∧ (∀ (st : LoopState) (t : ℚ) (frames : ℕ → Frame) (done rows : ℕ),
      (stepCycle seq st t (CycleEvent.fail frames done rows)).i = st.i)
    ∧ (∀ (st : LoopState) (t : ℚ) (frames : ℕ → Frame) (done rows : ℕ) (ch j : ℕ),
      j < st.i ∨ st.i + seq ≤ j →
      ((stepCycle seq st t (CycleEvent.fail frames done rows)).chans ch).sampleWrites j
        = (st.chans ch).sampleWrites j)
    ∧ (∀ (st : LoopState) (t : ℚ) (frames : ℕ → Frame),
      (stepCycle seq st t (CycleEvent.ok frames)).i = st.i + seq)
    ∧ (runLoop seq (seq * k) (initLoopState (seq * k) seq ids descs) s).i = seq * k
    ∧ (∀ ch ∈ ids, ∀ j, j < seq * k →
        1 ≤ ((runLoop seq (seq * k) (initLoopState (seq * k) seq ids descs) s).chans ch).sampleWrites j)
    ∧ ((∀ e ∈ s, eventNoPartial e = true) → ∀ ch ∈ ids, ∀ j,
        ((runLoop seq (seq * k) (initLoopState (seq * k) seq ids descs) s).chans ch).sampleWrites j
          = if j < seq * k then 1 else 0) := by
  refine ⟨fun st t => ⟨rfl, rfl⟩, fun st t frames done rows => rfl, ?_,
    fun st t frames => rfl, ?_, ?_, ?_⟩
  · intro st t frames done rows ch j hj
    rw [(stepCycle_fail seq st t frames done rows).2.1]
    exact processPartial_sampleWrites_outside seq st.i st.chanIds frames done rows
      st.chans ch j hj
  · refine runLoop_i_eq seq k hseq s _ 0 ?_ (Nat.zero_le k) ?_
    · show (0 : ℕ) = seq * 0
      rw [Nat.mul_zero]
    · rw [Nat.zero_add]
      exact hok
  · intro ch hch j hj
    refine runLoop_sample_ge seq k hseq ids hnd s _ 0 rfl ?_ (Nat.zero_le k) ?_ ?_
      ch hch j hj
    · show (0 : ℕ) = seq * 0
      rw [Nat.mul_zero]
    · rw [Nat.zero_add]
      exact hok
    · intro ch2 _ j2 hj2
      rw [Nat.mul_zero] at hj2
      omega
  · intro hnp ch hch j
    refine runLoop_counter seq k hseq ids hnd (fun cs => cs.sampleWrites) (fun _ => True)
      (fun i cs fr _ => processChannel_sampleWrites seq i cs fr) s _ 0 rfl ?_
      (Nat.zero_le k) ?_ (fun e _ => eventP_true ids e) hnp ?_ ch hch j
    · show (0 : ℕ) = seq * 0
      rw [Nat.mul_zero]
    · rw [Nat.zero_add]
      exact hok
    · intro ch2 _ j2
      show (0 : ℕ) = if j2 < seq * 0 then 1 else 0
      rw [Nat.mul_zero, if_neg (by omega)]

/-- Claim C1 (amended) witness: one channel, a trigger-time transport
failure (no partial writes), then a successful cycle, `nevents = 1`. -/
theorem claim1_amended_witness :
    (0 < 1 ∧ ([1] : List ℕ).Nodup ∧ 1 ≤ okCount sched1w
      ∧ (∀ e ∈ sched1w, eventNoPartial e = true))
    ∧ (runLoop 1 (1 * 1) (initLoopState (1 * 1) 1 [1] (fun _ => mkDesc 1)) sched1w).i = 1 * 1
    ∧ 1 ≤ ((runLoop 1 (1 * 1) (initLoopState (1 * 1) 1 [1]
        (fun _ => mkDesc 1)) sched1w).chans 1).sampleWrites 0
    ∧ ((runLoop 1 (1 * 1) (initLoopState (1 * 1) 1 [1]
        (fun _ => mkDesc 1)) sched1w).chans 1).sampleWrites 0
      = if 0 < 1 * 1 then 1 else 0 :=
  ⟨⟨by decide, by decide, by decide, by decide⟩,
    (claim1_amended 1 1 [1] (fun _ => mkDesc 1) sched1w
      (by decide) (by decide) (by decide)).2.2.2.2.1,
    (claim1_amended 1 1 [1] (fun _ => mkDesc 1) sched1w
      (by decide) (by decide) (by decide)).2.2.2.2.2.1 1 (by decide) 0 (by decide),
    (claim1_amended 1 1 [1] (fun _ => mkDesc 1) sched1w
      (by decide) (by decide) (by decide)).2.2.2.2.2.2 (by decide) 1 (by decide) 0⟩

/-- Claim C2: each channel's row width starts at the initial descriptor's
`wave_array_count` divided by the applied sequence count; a width request at
most the current width is a no-op (no truncation); processing a frame sets
the width to the maximum of the old width and the frame's per-sub-trace
sample count (growth only on a strictly greater report); a resize preserves
every previously written row as a prefix; and the width is monotonically
non-decreasing over any run of the capture loop. -/
theorem claim2 :
    (∀ (nevents seq : ℕ) (ids : List ℕ) (descs : ℕ → WaveDesc) (ch : ℕ),
      ((initLoopState nevents seq ids descs).chans ch).current_dim
        = (descs ch).wave_array_count / seq)
    ∧ (∀ (st : ChannelState) (w : ℕ), w ≤ st.current_dim → ensureWidth st w = st)
    ∧ (∀ (st : ChannelState) (w : ℕ), st.current_dim ≤ (ensureWidth st w).current_dim)
    ∧ (∀ (st : ChannelState) (w j : ℕ), (∀ r ∈ st.samples, r.length = st.current_dim) →
        st.samples.getD j [] <+: (ensureWidth st w).samples.getD j [])
    ∧ (∀ (seq i : ℕ) (st : ChannelState) (fr : Frame),
        (processChannel seq i st fr).current_dim
          = max st.current_dim (fr.desc.wave_array_count / seq))
    ∧ (∀ (seq nev : ℕ) (s : List (ℚ × CycleEvent)) (st : LoopState) (ch : ℕ),
        ch ∈ st.chanIds → st.chanIds.Nodup →
        (st.chans ch).current_dim ≤ ((runLoop seq nev st s).chans ch).current_dim) := by
  refine ⟨fun _ _ _ _ _ => rfl, ensureWidth_noop, ?_, ?_, processChannel_current_dim, ?_⟩
  · intro st w
    rw [ensureWidth_current_dim]
    exact le_max_left _ _
  · intro st w j h
    exact ensureWidth_prefix st w h j
  · intro seq nev s st ch _ _
    exact runLoop_width seq nev s st ch

/-- Claim C2 witness: a no-op shrink request, a prefix-preserving grow, and
session monotonicity on a concrete one-cycle run. -/
theorem claim2_witness :
    ((2 ≤ chPrev.current_dim) ∧ ensureWidth chPrev 2 = chPrev)
    ∧ ((∀ r ∈ chPrev.samples, r.length = chPrev.current_dim)
        ∧ chPrev.samples.getD 0 [] <+: (ensureWidth chPrev 5).samples.getD 0 [])
    ∧ ((1 ∈ (initLoopState 1 1 [1] (fun _ => mkDesc 1)).chanIds
        ∧ (initLoopState 1 1 [1] (fun _ => mkDesc 1)).chanIds.Nodup)
      ∧ ((initLoopState 1 1 [1] (fun _ => mkDesc 1)).chans 1).current_dim
          ≤ ((runLoop 1 1 (initLoopState 1 1 [1] (fun _ => mkDesc 1))
              [((0 : ℚ), CycleEvent.ok (fun _ => mkFrame1))]).chans 1).current_dim) :=
  ⟨⟨by decide, claim2.2.1 chPrev 2 (by decide)⟩,
    ⟨by decide, claim2.2.2.2.1 chPrev 5 0 (by decide)⟩,
    ⟨by decide, by decide⟩,
    claim2.2.2.2.2.2 1 1 [((0 : ℚ), CycleEvent.ok (fun _ => mkFrame1))]
      (initLoopState 1 1 [1] (fun _ => mkDesc 1)) 1 (by decide) (by decide)⟩

/-- Claim C3 counterexample: with `nevents = 1`, sequence count 1, one
all-success cycle whose frame carries no per-sub-trace trigger data (the
legitimate non-sequence-mode shape), the run terminates with `i = 1` and the
sample and calibration rows written once — but the trigger-offset and
trigger-time scalar columns are written zero times, not once, contradicting
the claim that every scalar column row is written exactly once. -/
theorem claim3_counterexample :
    run3.i = 1 ∧ run3.cycles = 1
    ∧ (run3.chans 1).sampleWrites 0 = 1
    ∧ (run3.chans 1).calibWrites 0 = 1
    ∧ (run3.chans 1).trigOffsetWrites 0 = 0
    ∧ (run3.chans 1).trigTimeWrites 0 = 0
    ∧ ¬ ((run3.chans 1).trigOffsetWrites 0 = 1) := by decide

/-- Claim C3 (amended): for `nevents = seq * k > 0` with no failures and a
long-enough schedule, the loop performs exactly `k` trigger cycles,
terminates with `i = nevents`, and writes every row of every active
channel's sample matrix and of the four calibration scalar columns exactly
once; the trigger-offset (resp. trigger-time) columns are written exactly
once per row only when every scheduled frame supplies that trigger data, and
are left unwritten by frames that lack it. -/
theorem claim3_amended (seq k : ℕ) (ids : List ℕ) (descs : ℕ → WaveDesc)
    (s : List (ℚ × CycleEvent)) (hseq : 0 < seq) (_hk : 0 < k) (hnd : ids.Nodup)
    (hall : ∀ e ∈ s, e.2.isOkEv = true) (hlen : k ≤ s.length) :
    (runLoop seq (seq * k) (initLoopState (seq * k) seq ids descs) s).cycles = k
    ∧ (runLoop seq (seq * k) (initLoopState (seq * k) seq ids descs) s).i = seq * k
    ∧ (∀ ch ∈ ids, ∀ j,
        ((runLoop seq (seq * k) (initLoopState (seq * k) seq ids descs) s).chans ch).sampleWrites j
            = (if j < seq * k then 1 else 0)
        ∧ ((runLoop seq (seq * k) (initLoopState (seq * k) seq ids descs) s).chans ch).calibWrites j
            = (if j < seq * k then 1 else 0))
    ∧ ((∀ e ∈ s, eventP (fun fr => 0 < fr.trg_offsets.length) ids e) →
        ∀ ch ∈ ids, ∀ j,
          ((runLoop seq (seq * k) (initLoopState (seq * k) seq ids descs) s).chans ch).trigOffsetWrites j
            = if j < seq * k then 1 else 0)
    ∧ ((∀ e ∈ s, eventP (fun fr => 0 < fr.trg_times.length) ids e) →
        ∀ ch ∈ ids, ∀ j,
          ((runLoop seq (seq * k) (initLoopState (seq * k) seq ids descs) s).chans ch).trigTimeWrites j
            = if j < seq * k then 1 else 0) := by
  have hok : k ≤ okCount s := by
    rw [okCount_all_ok s hall]
    exact hlen
  refine ⟨?_, ?_, ?_, ?_, ?_⟩
  · have h := runLoop_cycles seq k hseq s (initLoopState (seq * k) seq ids descs) 0 hall
      (by show (0 : ℕ) = seq * 0; rw [Nat.mul_zero]) (Nat.zero_le k) (by omega)
    rw [show (initLoopState (seq * k) seq ids descs).cycles = 0 from rfl] at h
    simpa using h
  · refine runLoop_i_eq seq k hseq s _ 0 ?_ (Nat.zero_le k) ?_
    · show (0 : ℕ) = seq * 0
      rw [Nat.mul_zero]
    · rw [Nat.zero_add]
      exact hok
  · intro ch hch j
    constructor
    · refine runLoop_counter seq k hseq ids hnd (fun cs => cs.sampleWrites) (fun _ => True)
        (fun i cs fr _ => processChannel_sampleWrites seq i cs fr) s _ 0 rfl
        (by show (0 : ℕ) = seq * 0; rw [Nat.mul_zero]) (Nat.zero_le k)
        (by rw [Nat.zero_add]; exact hok) (fun e _ => eventP_true ids e)
        (fun e he => eventNoPartial_of_isOkEv e (hall e he)) ?_ ch hch j
      intro ch2 _ j2
      show (0 : ℕ) = if j2 < seq * 0 then 1 else 0
      rw [Nat.mul_zero, if_neg (by omega)]
    · refine runLoop_counter seq k hseq ids hnd (fun cs => cs.calibWrites) (fun _ => True)
        (fun i cs fr _ => processChannel_calibWrites seq i cs fr) s _ 0 rfl
        (by show (0 : ℕ) = seq * 0; rw [Nat.mul_zero]) (Nat.zero_le k)
        (by rw [Nat.zero_add]; exact hok) (fun e _ => eventP_true ids e)
        (fun e he => eventNoPartial_of_isOkEv e (hall e he)) ?_ ch hch j
      intro ch2 _ j2
      show (0 : ℕ) = if j2 < seq * 0 then 1 else 0
      rw [Nat.mul_zero, if_neg (by omega)]
  · intro hoff ch hch j
    refine runLoop_counter seq k hseq ids hnd (fun cs => cs.trigOffsetWrites)
      (fun fr => 0 < fr.trg_offsets.length)
      (fun i cs fr hp => processChannel_trigOffsetWrites seq i cs fr hp) s _ 0 rfl
      (by show (0 : ℕ) = seq * 0; rw [Nat.mul_zero]) (Nat.zero_le k)
      (by rw [Nat.zero_add]; exact hok) hoff
      (fun e he => eventNoPartial_of_isOkEv e (hall e he)) ?_ ch hch j
    intro ch2 _ j2
    show (0 : ℕ) = if j2 < seq * 0 then 1 else 0
    rw [Nat.mul_zero, if_neg (by omega)]
  · intro htime ch hch j
    refine runLoop_counter seq k hseq ids hnd (fun cs => cs.trigTimeWrites)
      (fun fr => 0 < fr.trg_times.length)
      (fun i cs fr hp => processChannel_trigTimeWrites seq i cs fr hp) s _ 0 rfl
      (by show (0 : ℕ) = seq * 0; rw [Nat.mul_zero]) (Nat.zero_le k)
      (by rw [Nat.zero_add]; exact hok) htime
      (fun e he => eventNoPartial_of_isOkEv e (hall e he)) ?_ ch hch j
    intro ch2 _ j2
    show (0 : ℕ) = if j2 < seq * 0 then 1 else 0
    rw [Nat.mul_zero, if_neg (by omega)]

/-- Claim C3 (amended) witness: the §8.7 scenario (`nevents = 4`, sequence
count 2, one channel, two all-success cycles) performs exactly 2 cycles. -/
theorem claim3_amended_witness :
    (0 < 2 ∧ 0 < 2 ∧ ([1] : List ℕ).Nodup
      ∧ (∀ e ∈ sched5, e.2.isOkEv = true) ∧ 2 ≤ sched5.length)
    ∧ (runLoop 2 (2 * 2) (initLoopState (2 * 2) 2 [1] (fun _ => mkDesc 200)) sched5).cycles = 2 :=
  ⟨⟨by decide, by decide, by decide, by decide, by decide⟩,
    (claim3_amended 2 2 [1] (fun _ => mkDesc 200) sched5
      (by decide) (by decide) (by decide) (by decide) (by decide)).1⟩

/-- Claim C4 counterexample: a `StoreFailure` raised during the first
capture cycle (`nevents = 1`, sequence count 1) is not fatal in the code:
the broad `except Exception` handler at fetchAndSaveFast.py line 286 catches
it, clears the instrument, and retries the same index — the run goes on to
execute a second cycle and completes the event (`i = 1`, `cycles = 2`,
row 0 written).  Were the failure treated as fatal and propagated without
retry, the loop would have stopped after one cycle with `i = 0`. -/
theorem claim4_counterexample :
    run4.i = 1 ∧ run4.i ≠ 0 ∧ run4.cycles = 2 ∧ (run4.chans 1).sampleWrites 0 = 1 := by
  decide

/-- Claim C4 (amended): a persistence-layer failure raised inside the
per-cycle `try` block is handled identically to a transport failure — the
same broad handler catches it, no store state changes, `i` is not advanced,
and the loop continues with the same index (it does not propagate to the
caller).  Only the retry policy differs from the claim; the spec's design
note §9 records the broad catch as the mechanism. -/
theorem claim4_amended :
    (∀ (seq : ℕ) (st : LoopState) (t : ℚ),
      stepCycle seq st t CycleEvent.storeFail = stepCycle seq st t CycleEvent.transportFail)
    ∧ (∀ (seq : ℕ) (st : LoopState) (t : ℚ),
      (stepCycle seq st t CycleEvent.storeFail).i = st.i
      ∧ (stepCycle seq st t CycleEvent.storeFail).chans = st.chans)
    ∧ (∀ (seq nev : ℕ) (st : LoopState) (t : ℚ) (rest : List (ℚ × CycleEvent)),
      runLoop seq nev st ((t, CycleEvent.storeFail) :: rest)
        = runLoop seq nev st ((t, CycleEvent.transportFail) :: rest)) :=
  ⟨fun _ _ _ => rfl, fun _ _ _ => ⟨rfl, rfl⟩, fun _ _ _ _ _ => rfl⟩

/-- Claim C5 counterexample: in the §8.7 scenario (`nevents = 4`, applied
sequence count 2, always-succeeding cycles, `wave_array_count = 200`) the
`seconds_from_start` dataset is created with `nevents = 4` rows (line 230),
not 2, and the two per-trigger timestamps are written at the absolute event
indices 0 and 2 (line 249 writes at `i`), not densely at trigger numbers
0 and 1 — rows 1 and 3 of the timestamp column are never written. -/
theorem claim5_counterexample :
    run5.seconds_from_start.length = 4
    ∧ run5.seconds_from_start.length ≠ 2
    ∧ run5.secondsWrites 0 = 1 ∧ run5.secondsWrites 1 = 0
    ∧ run5.secondsWrites 2 = 1 ∧ run5.secondsWrites 3 = 0 := by
  decide

/-- Claim C5 (amended): the per-trigger timestamp is recorded into a single
1-D column of `nevents` rows, indexed by the absolute event index `i` of the
cycle's first sub-event (every cycle writes exactly at the current `i`); in
the `nevents = 4`, sequence-count-2 always-succeeding scenario the store
ends with a `(4, 100)` sample matrix, every sample row written once,
`i = 4`, and a 4-row timestamp column whose entries at indices 0 and 2 were
written exactly once each (indices 1 and 3 never). -/
theorem claim5_amended :
    (∀ (seq : ℕ) (st : LoopState) (t : ℚ) (ev : CycleEvent),
      (stepCycle seq st t ev).seconds_from_start = st.seconds_from_start.set st.i t
      ∧ (stepCycle seq st t ev).secondsWrites = bumpF st.secondsWrites st.i)
    ∧ run5.i = 4
    ∧ (run5.chans 1).samples.length = 4
    ∧ ((run5.chans 1).samples.all fun r => r.length == 100) = true
    ∧ (run5.chans 1).sampleWrites 0 = 1 ∧ (run5.chans 1).sampleWrites 1 = 1
    ∧ (run5.chans 1).sampleWrites 2 = 1 ∧ (run5.chans 1).sampleWrites 3 = 1
    ∧ run5.seconds_from_start.length = 4
    ∧ run5.secondsWrites 0 = 1 ∧ run5.secondsWrites 1 = 0
    ∧ run5.secondsWrites 2 = 1 ∧ run5.secondsWrites 3 = 0 :=
  ⟨fun seq st t ev => by cases ev <;> exact ⟨rfl, rfl⟩,
    by decide, by decide, by decide, by decide, by decide, by decide, by decide,
    by decide, by decide, by decide, by decide, by decide⟩

/-- Claim C7 counterexample: rewriting a row whose previous contents were
`[5, 6]` (store width 2) with a one-sample sub-trace leaves the row as
`[7, 0]` — the trailing column is overwritten with the zero from the fresh
`scratch = np.zeros(...)` buffer (line 270), not left at its previous value
`6` as the claim asserts. -/
theorem claim7_counterexample :
    (processChannel 1 0 chPrev mkFrame1).samples = [[7, 0]]
    ∧ ([[(7 : ℤ), 0]] : List (List ℤ)) ≠ [[7, 6]] := by
  decide

/-- Claim C7 (amended): a row write stores exactly the scratch buffer: the
first `min(num_samples, len(sub))` entries are copied from the sub-trace
starting at column 0, and every remaining column of the row up to the store
width is set to zero (the fill of the freshly zeroed scratch buffer), not
left at its previous value. -/
theorem claim7_amended :
    (∀ (fr : Frame) (ns rowLen i : ℕ) (st : ChannelState) (n : ℕ),
      (writeRowStep fr ns rowLen i st n).samples
        = st.samples.set (i + n)
            (padTo st.current_dim ((subTrace fr.wave_array rowLen n).take ns)))
    ∧ (∀ (w ns : ℕ) (sub : List ℤ) (j : ℕ), j < w →
      (j < min ns sub.length → (padTo w (sub.take ns)).getD j 0 = sub.getD j 0)
      ∧ (min ns sub.length ≤ j → (padTo w (sub.take ns)).getD j 0 = 0)) := by
  refine ⟨fun _ _ _ _ _ _ => rfl, ?_⟩
  intro w ns sub j hj
  constructor
  · intro hlt
    rw [padTo_getD (sub.take ns) w j hj, List.length_take,
      if_pos (by omega), take_getD sub ns j (by omega)]
  · intro hge
    rw [padTo_getD (sub.take ns) w j hj, List.length_take, if_neg (by omega)]

/-- Claim C7 (amended) witness: width 2, one-sample sub-trace `[7]`:
column 1 of the written row is zero. -/
theorem claim7_witness :
    ((1 : ℕ) < 2 ∧ min 1 ([(7 : ℤ)] : List ℤ).length ≤ 1)
    ∧ (padTo 2 (([(7 : ℤ)] : List ℤ).take 1)).getD 1 0 = 0 :=
  ⟨⟨by decide, by decide⟩, (claim7_amended.2 2 1 [(7 : ℤ)] 1 (by decide)).2 (by decide)⟩

/-- Claim C8: a mismatch between the requested sequence count and the one
parsed back from the instrument's `SEQUENCE` setting is not fatal — setup
returns the settings with only a warning flag recording the mismatch — and
every subsequent sizing decision uses the applied value: the capture run is
independent of the requested `nsequence`, the initial row width is
`wave_array_count` divided by the applied count, and each successful cycle
advances `i` by the applied count. -/
theorem claim8 (nseq nseq2 : ℤ) (rb : List Char) (nevents : ℕ) (ids : List ℕ)
    (descs : ℕ → WaveDesc) (sched : List (ℚ × CycleEvent)) (sc : ℤ)
    (h : get_sequence_count rb = Except.ok sc) :
    setup_scope nseq rb = Except.ok { settings := rb, warned := nseq ≠ sc }
    ∧ fetchAndSaveFastModel nevents nseq rb ids descs sched
        = fetchAndSaveFastModel nevents nseq2 rb ids descs sched
    ∧ fetchAndSaveFastModel nevents nseq rb ids descs sched
        = Except.ok (runLoop sc.toNat nevents (initLoopState nevents sc.toNat ids descs) sched)
    ∧ (∀ ch : ℕ, ((initLoopState nevents sc.toNat ids descs).chans ch).current_dim
        = (descs ch).wave_array_count / sc.toNat)
    ∧ (∀ (st : LoopState) (t : ℚ) (frames : ℕ → Frame),
        (stepCycle sc.toNat st t (CycleEvent.ok frames)).i = st.i + sc.toNat) := by
  refine ⟨?_, ?_, ?_, fun ch => rfl, fun st t frames => rfl⟩
  · unfold setup_scope
    rw [h]
  · unfold fetchAndSaveFastModel setup_scope
    simp only [h]
  · unfold fetchAndSaveFastModel setup_scope
    simp only [h]

/-- Claim C8 witness: requested 3, applied 2 (read back `"ON,2"`): setup
succeeds with the warning flag set, and the run is the same as if 5 had
been requested. -/
theorem claim8_witness :
    get_sequence_count ("ON,2".toList) = Except.ok 2
    ∧ setup_scope 3 ("ON,2".toList)
        = Except.ok { settings := "ON,2".toList, warned := (3 : ℤ) ≠ 2 }
    ∧ fetchAndSaveFastModel 2 3 ("ON,2".toList) [1] (fun _ => mkDesc 200) sched5
        = fetchAndSaveFastModel 2 5 ("ON,2".toList) [1] (fun _ => mkDesc 200) sched5 :=
  ⟨by decide,
    (claim8 3 5 ("ON,2".toList) 2 [1] (fun _ => mkDesc 200) sched5 2 (by decide)).1,
    (claim8 3 5 ("ON,2".toList) 2 [1] (fun _ => mkDesc 200) sched5 2 (by decide)).2.1⟩

/-- Claim C10 counterexample: the claim's "returns 1 exactly when the value
does not contain `b"ON"`" fails in the only-if direction: `"ON,1"` contains
`ON` yet `get_sequence_count` returns 1 (by parsing the second field). -/
theorem claim10_counterexample :
    containsON ("ON,1".toList) = true
    ∧ get_sequence_count ("ON,1".toList) = Except.ok 1 := by
  decide

/-- Claim C10 (amended): whenever the `SEQUENCE` value does not contain the
substring `ON` the function returns the default 1 (it may also return 1 by
parsing when `ON` is present and the second field is `1`); and it raises
exactly when the value contains `ON` and the second comma-separated field is
missing or not a decimal integer — so totality requires the precondition
that any value containing `ON` is of the form `ON,<n>,...`. -/
theorem claim10_amended (v : List Char) :
    (containsON v = false → get_sequence_count v = Except.ok 1)
    ∧ (get_sequence_count v = Except.error ()
        ↔ containsON v = true ∧ ((v.splitOn ',').get? 1).bind pyInt = none) := by
  constructor
  · intro h
    unfold get_sequence_count
    rw [h]
    rfl
  · unfold get_sequence_count
    by_cases hON : containsON v
    · rw [hON]
      cases hsplit : (v.splitOn ',').get? 1 with
      | none => simp [hsplit]
      | some field =>
        cases hpy : pyInt field with
        | none => simp [hsplit, hpy]
        | some n => simp [hsplit, hpy]
    · have hOFF : containsON v = false := by
        cases hc : containsON v
        · rfl
        · exact absurd hc hON
      rw [hOFF]
      simp [hOFF]

/-- Claim C10 (amended) witness: the bare value `"ON"` contains `ON`, has no
second comma field, and makes `get_sequence_count` raise. -/
theorem claim10_witness :
    (containsON ("ON".toList) = true
      ∧ ((("ON".toList).splitOn ',').get? 1).bind pyInt = none)
    ∧ get_sequence_count ("ON".toList) = Except.error () :=
  ⟨⟨by decide, by decide⟩,
    (claim10_amended ("ON".toList)).2.mpr ⟨by decide, by decide⟩⟩

section RatEvaluation

attribute [local semireducible] Rat.mul Rat.inv Rat.add Rat.sub

/-- Claim C9: `datasize_human_readable` repeatedly divides by 1024 while at
least 1024 and unit steps remain through B, KB, MB, GB, TB, PB, then formats
the quotient with two decimals, a space, and the unit:
`humanReadableBytes(0) = "0.00 B"`, `humanReadableBytes(1536) = "1.50 KB"`,
`humanReadableBytes(1024*1024*1024*5) = "5.00 GB"`. -/
theorem claim9 :
    datasize_human_readable 0 = "0.00 B"
    ∧ datasize_human_readable 1536 = "1.50 KB"
    ∧ datasize_human_readable (1024 * 1024 * 1024 * 5) = "5.00 GB" := by
  refine ⟨by decide, by decide, by decide⟩

/-- Claim C6 counterexample: `get_optimal_prefix(999.9999999999)` (the exact
decimal, `9999999999999 / 10^10`) yields `"1000.000 "` — its log10 is
strictly below 3, the tolerance tie-break never fires because it tests
`exp_exact % 3` (identically zero), so the value stays in the base bucket —
not `"1.000 k"` as the claim asserts.  Moreover an exponent outside the
prefix table (here 27, from `10^27`) yields `"1.000 "`: the empty prefix,
but the value is still rescaled by `10^27`, not passed through unscaled. -/
theorem claim6_counterexample :
    get_optimal_prefix ((9999999999999 : ℚ) / 10 ^ 10) = "1000.000 "
    ∧ "1000.000 " ≠ "1.000 k"
    ∧ get_optimal_prefix ((10 : ℚ) ^ 27) = "1.000 "
    ∧ "1.000 " ≠ "1000000000000000000000000000.000 " := by
  refine ⟨by decide, by decide, by decide, by decide⟩

/-- Claim C6 (amended): `get_optimal_prefix(0) = "0"`; otherwise the function
computes `e = floor(log10(|x|)/3)*3` exactly and returns `x / 10^e` with
three decimals, a space, and the matching SI letter; the tolerance test
compares `|exp_exact % 3|` — identically zero since `exp_exact` is an exact
multiple of three — with the tolerance, so the rounding branch is always
taken and never changes the exponent (the result is independent of the
tolerance argument); `get_optimal_prefix(1000) = "1.000 k"`,
`get_optimal_prefix(999) = "999.000 "`,
`get_optimal_prefix(999.9999999999) = "1000.000 "`, and an exponent outside
the table yields an empty prefix with the value still rescaled by `10^e`
(`get_optimal_prefix(10^27) = "1.000 "`). -/
theorem claim6_amended :
    get_optimal_prefix 0 = "0"
    ∧ get_optimal_prefix 1000 = "1.000 k"
    ∧ get_optimal_prefix 999 = "999.000 "
    ∧ get_optimal_prefix ((9999999999999 : ℚ) / 10 ^ 10) = "1000.000 "
    ∧ get_optimal_prefix ((10 : ℚ) ^ 27) = "1.000 "
    ∧ (∀ x t u : ℚ, get_optimal_prefix_tol x t = get_optimal_prefix_tol x u) := by
  refine ⟨by decide, by decide, by decide, by decide, by decide, ?_⟩
  intro x t u
  simp only [get_optimal_prefix_tol, ite_self]

end RatEvaluation
